import Mathlib

/-!
Shallow embedding of `usage-cpcode.py`: the reconciliation and aggregation
engine for monthly CP-code traffic reports.  Python dictionaries are modelled
as insertion-ordered association lists, Python exceptions (KeyError on a
missing dict key, ValueError from `int()`, AttributeError on `None.replace`,
NameError on an unbound variable) as `Except String`, and Python `while`
loops as fuelled structural recursion where the fuel provably dominates the
trip count.
-/

deriving instance DecidableEq for Except

namespace UsageCpcode

/-! ## Python dictionaries as insertion-ordered association lists -/

/-- A Python `dict`: insertion-ordered key/value list with unique keys when
built from `[]` via `dinsert`. -/
abbrev Dict (κ ν : Type) := List (κ × ν)

/-- `d[k] = v`: overwrite the first binding in place, or append a new one. -/
def dinsert [BEq κ] : Dict κ ν → κ → ν → Dict κ ν
  | [], k, v => [(k, v)]
  | (k₀, v₀) :: rest, k, v =>
    if k₀ == k then (k₀, v) :: rest else (k₀, v₀) :: dinsert rest k v

/-- `d.get(k)` / `d[k]` lookup (the caller decides whether `none` is a
KeyError). -/
def dlookup [BEq κ] (m : Dict κ ν) (k : κ) : Option ν :=
  (m.find? (fun p => p.1 == k)).map (·.2)

/-- `k in d`. -/
def dmem [BEq κ] (m : Dict κ ν) (k : κ) : Bool :=
  (dlookup m k).isSome

/-- `list(d)`: the keys in insertion order. -/
def dkeys (m : Dict κ ν) : List κ := m.map (·.1)

/-- `if k in d: d[k].append(v) else: d[k] = [v]` (lines 114-116 / 209-212). -/
def dappend [BEq κ] (m : Dict κ (List ν)) (k : κ) (v : ν) : Dict κ (List ν) :=
  match dlookup m k with
  | some l => dinsert m k (l ++ [v])
  | none => dinsert m k [v]

/-- Python `set.add`: only membership is ever observed, so a duplicate-free
list suffices. -/
def setAdd [BEq κ] (s : List κ) (k : κ) : List κ :=
  if s.contains k then s else s ++ [k]

/-- `row.get(key, dflt)` where the outer `Option` is key presence and the
inner value is the stored one (Python `None` is modelled by an inner
`none`). -/
def pyGet (x : Option (Option α)) (dflt : α) : Option α :=
  match x with
  | none => some dflt
  | some v => v

/-! ## Python string operations on character lists -/

/-- `pat` occurs at the very start of `l`. -/
def leadsWith : List Char → List Char → Bool
  | [], _ => true
  | _ :: _, [] => false
  | p :: ps, c :: cs => p == c && leadsWith ps cs

/-- Python `pat in l`: `pat` occurs somewhere in `l` as a contiguous
substring. -/
def hasSub (pat : List Char) : List Char → Bool
  | [] => leadsWith pat []
  | c :: cs => leadsWith pat (c :: cs) || hasSub pat cs

/-- One left-to-right pass of Python `str.replace(pat, "")`: delete every
non-overlapping occurrence of `pat`.  `skip` counts characters still to be
dropped from the occurrence currently being deleted. -/
def replAux (pat : List Char) : Nat → List Char → List Char
  | _, [] => []
  | skip + 1, _ :: cs => replAux pat skip cs
  | 0, c :: cs =>
    if pat ≠ [] && leadsWith pat (c :: cs) then
      replAux pat (pat.length - 1) cs
    else
      c :: replAux pat 0 cs

/-- Python `s.replace(pat, "")`. -/
def pyReplace (s : String) (pat : String) : String :=
  String.mk (replAux pat.data 0 s.data)

/-! ## Python `int()` string parsing and decimal formatting -/

def isDigitCh (c : Char) : Bool := '0' ≤ c && c ≤ '9'

def digitVal (c : Char) : Nat := c.toNat - '0'.toNat

/-- One step of decimal accumulation. -/
def digAcc (a : Nat) (c : Char) : Nat := a * 10 + digitVal c

/-- Python `int(s)` restricted to plain decimal-digit strings (the only shape
the program ever feeds it); anything else raises ValueError, i.e. `none`. -/
def parseNat (cs : List Char) : Option Nat :=
  if cs.isEmpty then none
  else if cs.all isDigitCh then some (cs.foldl digAcc 0)
  else none

def pyIntNat (s : String) : Option Nat := parseNat s.data

/-- Python `s.split('-')`. -/
def splitD : List Char → List (List Char)
  | [] => [[]]
  | c :: cs =>
    if c == '-' then [] :: splitD cs
    else
      match splitD cs with
      | p :: ps => (c :: p) :: ps
      | [] => [[c]]

def digitCh (d : Nat) : Char := Char.ofNat (d + 48)

/-- Big-endian decimal digits of `n`; fuelled, and the fuel `n + 1` strictly
dominates the number of divisions by ten. -/
def digitsBE : Nat → Nat → List Char
  | 0, _ => []
  | fuel + 1, n => if n = 0 then [] else digitsBE fuel (n / 10) ++ [digitCh (n % 10)]

/-- Python `str(n)` for a natural number. -/
def natRepr (n : Nat) : List Char :=
  if n = 0 then ['0'] else digitsBE (n + 1) n

/-- Python `f"{i:0w}"`: zero-pad the decimal form to total width `w`,
counting the minus sign of a negative number inside the width. -/
def padNum (w : Nat) (i : Int) : List Char :=
  if i < 0 then
    '-' :: (List.replicate (w - 1 - (natRepr i.natAbs).length) '0' ++ natRepr i.natAbs)
  else
    List.replicate (w - (natRepr i.toNat).length) '0' ++ natRepr i.toNat

/-! ## `month_add` (source lines 56-68) -/

/-- `while mm > 12: mm -= 12; y += 1`, fuelled; `mm.toNat` dominates the trip
count (each trip removes 12 from a positive `mm`). -/
def normUpAux : Nat → Int → Int → Int × Int
  | 0, y, mm => (y, mm)
  | fuel + 1, y, mm => if 12 < mm then normUpAux fuel (y + 1) (mm - 12) else (y, mm)

def normUp (y mm : Int) : Int × Int := normUpAux mm.toNat y mm

/-- `while mm < 1: mm += 12; y -= 1`, fuelled; `(1 - mm).toNat` dominates the
trip count. -/
def normDownAux : Nat → Int → Int → Int × Int
  | 0, y, mm => (y, mm)
  | fuel + 1, y, mm => if mm < 1 then normDownAux fuel (y - 1) (mm + 12) else (y, mm)

def normDown (y mm : Int) : Int × Int := normDownAux (1 - mm).toNat y mm

/-- `month_add(m, n)`: split on `'-'`, parse both parts, add `n` to the month,
normalise with the two `while` loops, reformat as `f"{y:04}-{mm:02}"`.
A string that does not split into exactly two parseable parts raises
(ValueError), i.e. `none`. -/
def month_add (m : String) (n : Int) : Option String :=
  match splitD m.data with
  | [ys, ms] =>
    match parseNat ys, parseNat ms with
    | some y, some mm =>
      let p1 := normUp (y : Int) ((mm : Int) + n)
      let p2 := normDown p1.1 p1.2
      some (String.mk (padNum 4 p2.1 ++ '-' :: padNum 2 p2.2))
    | _, _ => none
  | _ => none

/-- The canonical `"YYYY-MM"` string for year `y`, month `mm`. -/
def fmtMonth (y mm : Int) : String :=
  String.mk (padNum 4 y ++ '-' :: padNum 2 mm)

/-! ## Data model: the JSON shapes the APIs return -/

/-- An entry of `listContracts()["contracts"]["items"]`; only `contractId` is
ever read. -/
structure Contract where
  contractId : String
deriving DecidableEq

/-- `cpcode["accessGroup"]` of the billing catalog. -/
structure AccessGroup where
  contractId : String
deriving DecidableEq

/-- An element of `cpcode["contracts"]` in the billing catalog. -/
structure CpContractAssoc where
  status : String
deriving DecidableEq

/-- An element of `cpcode["products"]` in the billing catalog. -/
structure CpProductAssoc where
  productId : String
deriving DecidableEq

/-- An entry of `listCpCodes()` (the billing catalog `/cprg/v1/cpcodes`). -/
structure CpCode where
  cpcodeId : Nat
  cpcodeName : String
  accessGroup : AccessGroup
  contracts : List CpContractAssoc
  products : List CpProductAssoc
deriving DecidableEq

/-- An entry of `listCpCodesOfGroup` (`/papi/v1/cpcodes`): the id arrives as
a string and is passed to `int()`. -/
structure GroupCpItem where
  cpcodeId : String
deriving DecidableEq

/-- A PAPI group (`/papi/v1/groups` item): `parentGroupId` is an optional
key. -/
structure PGroup where
  groupId : String
  groupName : String
  parentGroupId : Option String
  contractIds : List String
deriving DecidableEq

/-- A reporting-group cpcode reference. -/
structure RepCpCode where
  cpcodeId : Nat
deriving DecidableEq

/-- A contract nested under a reporting group. -/
structure RepContract where
  cpcodes : List RepCpCode
deriving DecidableEq

/-- An entry of `listRepGroups()` (`/cprg/v1/reporting-groups`). -/
structure RepGroup where
  reportingGroupName : String
  contracts : List RepContract
deriving DecidableEq

/-- A per-cpcode usage statistic as extracted by `getCpStatistics`: `hits`
and `gb` are `None` when the corresponding stat type was missing. -/
structure CpStat where
  cpcode : Nat
  hits : Option Nat
  gb : Option Rat
deriving DecidableEq

/-! ## Hierarchy resolution (source lines 119-138) -/

/-- `rootContract(group, groups)`: walk to the parent when it can be found,
otherwise scan the group's own `contractIds` for one whose id minus its
first four characters occurs inside the group name.  The Python recursion
is unbounded (it diverges on a parent cycle); the fuel dominates the chain
length for every acyclic input. -/
def rootContract : Nat → PGroup → List PGroup → Option String
  | 0, _, _ => none
  | fuel + 1, g, groups =>
    match g.parentGroupId with
    | some pid =>
      match groups.find? (fun x => x.groupId == pid) with
      | some x => rootContract fuel x groups
      | none =>
        g.contractIds.find? (fun cid => hasSub (cid.data.drop 4) g.groupName.data)
    | none =>
      g.contractIds.find? (fun cid => hasSub (cid.data.drop 4) g.groupName.data)

/-- `groupPath(groupId, groups)`: root-to-leaf list of group names; `[]` for
an unknown id.  Fuelled like `rootContract`. -/
def groupPath : Nat → String → List PGroup → List String
  | 0, _, _ => []
  | fuel + 1, gid, groups =>
    match groups.find? (fun g => g.groupId == gid) with
    | some g =>
      match g.parentGroupId with
      | some p => groupPath fuel p groups ++ [g.groupName]
      | none => [g.groupName]
    | none => []

/-- A PAPI group decorated by `listAccountGroups` with its resolved root
contract and ancestor path. -/
structure AGroup where
  base : PGroup
  contractId : Option String
  path : List String
deriving DecidableEq

/-- `listAccountGroups()` minus the transport: decorate every group with
`rootContract` and `groupPath` (fuel `|groups| + 1` dominates every acyclic
chain). -/
def listAccountGroups (groups : List PGroup) : List AGroup :=
  groups.map (fun g =>
    { base := g
      contractId := rootContract (groups.length + 1) g groups
      path := groupPath (groups.length + 1) g.groupId groups })

/-! ## Cross-reference builder -/

/-- `createMapCpcodeRepGroup()` minus the transport (source lines 106-117). -/
def createMapCpcodeRepGroup (rgs : List RepGroup) : Dict Nat (List RepGroup) :=
  rgs.foldl (fun m rg =>
    rg.contracts.foldl (fun m c =>
      c.cpcodes.foldl (fun m cp => dappend m cp.cpcodeId rg) m) m) []

/-! ## Reconciliation engine (source lines 186-279) -/

def DELIVERY_PRODUCTS : List String := ["Site_Accel::Site_Accel"]

/-- All the API responses `cptrafficPerMonth` consumes, made explicit:
`cpcodesOfGroup` is keyed by (stripped contract id, raw group id) and
`usage` by (stripped contract id, product id, month). -/
structure Env where
  contracts : List Contract
  cpcodes : List CpCode
  groups : List PGroup
  cpcodesOfGroup : String → String → List GroupCpItem
  repGroups : List RepGroup
  usage : String → String → String → List CpStat

/-- An emitted report row.  `hits`/`gb` are `none` when the Python dict has
no such key (the no-traffic rows) and `some v` when the key is present with
value `v` (`v = none` is Python `None`). -/
structure Row where
  contract : String
  cpcode : Nat
  name : String
  groupPath : List String
  repGroups : List String
  hits : Option (Option Nat)
  gb : Option (Option Rat)
deriving DecidableEq

/-- `contractMap` (source lines 189-191). -/
def buildContractMap (cs : List Contract) : Dict String Contract :=
  cs.foldl (fun m c => dinsert m c.contractId c) []

/-- `cpcodeMap` (source lines 193-196). -/
def buildCpcodeMap (cps : List CpCode) : Dict Nat CpCode :=
  cps.foldl (fun m c => dinsert m c.cpcodeId c) []

/-- The group loop (source lines 199-212): build `groupmap` and
`mapCpcodeAccgroup`.  `int()` failure and `None.replace` raise. -/
def groupPhase (env : Env) : Except String (Dict Nat AGroup × Dict Nat (List Nat)) :=
  (listAccountGroups env.groups).foldlM (fun st grp => do
    let gid ← (pyIntNat (pyReplace grp.base.groupId "grp_")).elim
      (Except.error "ValueError: int") Except.ok
    let gm := dinsert st.1 gid grp
    let cid ← grp.contractId.elim (Except.error "AttributeError: None.replace") Except.ok
    let contractId := pyReplace cid "ctr_"
    let am ← (env.cpcodesOfGroup contractId grp.base.groupId).foldlM (fun am cpi => do
      let k ← (pyIntNat cpi.cpcodeId).elim (Except.error "ValueError: int") Except.ok
      pure (dappend am k gid)) st.2
    pure (gm, am)) (([] : Dict Nat AGroup), ([] : Dict Nat (List Nat)))

/-- One iteration of the first-level attribution loop (source lines 227-232
/ 267-270): keep `path[1]` exactly when the path has length 2;
`groupmap[gid]` on an unknown id raises KeyError. -/
def flnStep (gm : Dict Nat AGroup) (acc : List String) (gid : Nat) :
    Except String (List String) := do
  let g ← (dlookup gm gid).elim (Except.error "KeyError: groupmap") Except.ok
  if g.path.length = 2 then pure (acc ++ [g.path.getD 1 ""]) else pure acc

/-- The first-level attribution loop over all of an entity's group ids. -/
def firstLevelNames (gm : Dict Nat AGroup) (gids : List Nat) :
    Except String (List String) :=
  gids.foldlM (flnStep gm) []

/-- `repgroupnames` (source lines 234-236 / 272-274): tolerant of a missing
key. -/
def repNames (rm : Dict Nat (List RepGroup)) (k : Nat) : List String :=
  match dlookup rm k with
  | some rs => rs.map (·.reportingGroupName)
  | none => []

/-- Processing of one usage statistic (source lines 220-240): the contract
comes from the billing catalog's `accessGroup`, not from the contract the
usage was fetched under; `cpcodeMap[...]` and `mapCpcodeAccgroup[...]` raise
KeyError when the entity is unknown to them. -/
def processStat (cpcodeMap : Dict Nat CpCode) (gm : Dict Nat AGroup)
    (am : Dict Nat (List Nat)) (rm : Dict Nat (List RepGroup)) (st : CpStat) :
    Except String Row := do
  let c ← (dlookup cpcodeMap st.cpcode).elim (Except.error "KeyError: cpcodeMap") Except.ok
  let contractId := pyReplace c.accessGroup.contractId "ctr_"
  let gids ← (dlookup am st.cpcode).elim
    (Except.error "KeyError: mapCpcodeAccgroup") Except.ok
  let gpath ← firstLevelNames gm gids
  pure { contract := contractId, cpcode := st.cpcode, name := c.cpcodeName,
         groupPath := gpath, repGroups := repNames rm st.cpcode,
         hits := some st.hits, gb := some st.gb }

/-- State of the usage loop: emitted rows, `addedCpCodes`, and the current
value of the Python variable `cpcodeId` (`none` while still unbound). -/
structure UState where
  traffic : List Row
  added : List Nat
  lastCp : Option Nat
deriving DecidableEq

/-- Processing of one usage statistic inside the stats loop: emit the row
and update the loop variable `cpcodeId`. -/
def usageStatStep (cpcodeMap : Dict Nat CpCode) (gm : Dict Nat AGroup)
    (am : Dict Nat (List Nat)) (rm : Dict Nat (List RepGroup))
    (st : UState) (stat : CpStat) : Except String UState := do
  let row ← processStat cpcodeMap gm am rm stat
  pure { st with traffic := st.traffic ++ [row], lastCp := some stat.cpcode }

/-- One iteration `for contract in contractMap:` of the usage loop (source
lines 218-241): fetch and process this contract's statistics, then execute
the mis-indented `addedCpCodes.add(cpcodeId)` of line 241, which records
only the current value of the variable `cpcodeId` and raises NameError when
that variable was never assigned. -/
def usageContractStep (env : Env) (cpcodeMap : Dict Nat CpCode) (gm : Dict Nat AGroup)
    (am : Dict Nat (List Nat)) (rm : Dict Nat (List RepGroup))
    (productId month : String) (st : UState) (ck : String) : Except String UState := do
  let st ← (env.usage (pyReplace ck "ctr_") productId month).foldlM
    (usageStatStep cpcodeMap gm am rm) st
  match st.lastCp with
  | some k => pure { st with added := setAdd st.added k }
  | none => Except.error "NameError: cpcodeId"

/-- The usage loop (source lines 216-241). -/
def usagePhase (env : Env) (cpcodeMap : Dict Nat CpCode) (gm : Dict Nat AGroup)
    (am : Dict Nat (List Nat)) (rm : Dict Nat (List RepGroup))
    (productId month : String) (keys : List String) : Except String UState :=
  keys.foldlM (usageContractStep env cpcodeMap gm am rm productId month) ⟨[], [], none⟩

/-- `validContract` (source lines 247-254). -/
def ongoingOk (c : CpCode) : Bool :=
  c.contracts.any (fun a => a.status == "ongoing")

/-- `validProduct` (source lines 256-262). -/
def productOk (c : CpCode) : Bool :=
  c.products.any (fun p => DELIVERY_PRODUCTS.contains p.productId)

/-- One iteration of the no-traffic loop (source lines 245-278): a `continue`
skips the final `addedCpCodes.add`; rows are emitted without `hits`/`gb`
keys. -/
def processNoTraffic (gm : Dict Nat AGroup) (am : Dict Nat (List Nat))
    (rm : Dict Nat (List RepGroup)) (st : List Row × List Nat)
    (entry : Nat × CpCode) : Except String (List Row × List Nat) :=
  if st.2.contains entry.1 then
    pure (st.1, setAdd st.2 entry.1)
  else
    let contractId := pyReplace entry.2.accessGroup.contractId "ctr_"
    if ¬ ongoingOk entry.2 then pure st
    else if ¬ productOk entry.2 then pure st
    else do
      let gids ← (dlookup am entry.1).elim
        (Except.error "KeyError: mapCpcodeAccgroup") Except.ok
      let gpath ← firstLevelNames gm gids
      let row : Row :=
        { contract := contractId, cpcode := entry.1, name := entry.2.cpcodeName,
          groupPath := gpath, repGroups := repNames rm entry.1,
          hits := none, gb := none }
      pure (st.1 ++ [row], setAdd st.2 entry.1)

/-- `cptrafficPerMonth(productId, month, includeNoTraffic)` minus the
transport (source lines 187-279).  Note the source guard is
`if not includeNoTraffic:`, so the no-traffic pass runs exactly when the
flag is false. -/
def cptrafficPerMonth (env : Env) (productId month : String)
    (includeNoTraffic : Bool) : Except String (List Row) := do
  let contractMap := buildContractMap env.contracts
  let cpcodeMap := buildCpcodeMap env.cpcodes
  let maps ← groupPhase env
  let rm := createMapCpcodeRepGroup env.repGroups
  let ust ← usagePhase env cpcodeMap maps.1 maps.2 rm productId month (dkeys contractMap)
  if ¬ includeNoTraffic then
    let fin ← cpcodeMap.foldlM (processNoTraffic maps.1 maps.2 rm) (ust.traffic, ust.added)
    pure fin.1
  else
    pure ust.traffic

/-! ## Summary aggregator (source lines 296-324) -/

/-- One bucket of `sumRepGroups`: hits can go negative through the
`#Multiple` correction, byte volumes are modelled exactly as rationals. -/
structure Stats where
  hits : Int
  gb : Rat
deriving DecidableEq

/-- Get-or-insert-zero followed by `+=` on both fields. -/
def bucketAdd (tbl : Dict String Stats) (k : String) (dh : Int) (dg : Rat) :
    Dict String Stats :=
  let cur := (dlookup tbl k).getD ⟨0, 0⟩
  dinsert tbl k ⟨cur.hits + dh, cur.gb + dg⟩

/-- Aggregation of one row (source lines 307-324): every reporting group of
the row is credited the full statistic, rows with no group go to `#None`,
and `#Multiple` absorbs `-(k-1)` times the statistic for `k > 1` groups.
`row.get("hits", 0)` yields Python `None` (then `+=` raises TypeError) when
the key is present with value `None`. -/
def sumStep (tbl : Dict String Stats) (row : Row) : Except String (Dict String Stats) := do
  let h ← (pyGet row.hits 0).elim (Except.error "TypeError: None") Except.ok
  let g ← (pyGet row.gb 0).elim (Except.error "TypeError: None") Except.ok
  let k := row.repGroups.length
  let tbl := row.repGroups.foldl (fun t rg => bucketAdd t rg (h : Int) g) tbl
  let tbl := if k = 0 then bucketAdd tbl "#None" (h : Int) g else tbl
  let tbl := if 1 < k then
      bucketAdd tbl "#Multiple" (-((k : Int) - 1) * (h : Int)) (-((k : Rat) - 1) * g)
    else tbl
  pure tbl

/-- The `sumRepGroups` accumulation of the main loop. -/
def sumRepGroups (rows : List Row) : Except String (Dict String Stats) :=
  rows.foldlM sumStep []

/-- Total hits over every bucket of the table. -/
def totalHits (tbl : Dict String Stats) : Int := (tbl.map (·.2.hits)).sum

/-- Total byte volume over every bucket of the table. -/
def totalGb (tbl : Dict String Stats) : Rat := (tbl.map (·.2.gb)).sum

/-- The hit statistic a row contributes (`row.get("hits", 0)`, reading
Python `None` as 0 — the aggregator raises before using it in that case). -/
def hitVal (r : Row) : Int := (((pyGet r.hits 0).getD 0 : Nat) : Int)

/-- The byte statistic a row contributes. -/
def gbVal (r : Row) : Rat := (pyGet r.gb 0).getD 0

/-- The hit total currently recorded under bucket `k` (0 when absent). -/
def statHits (tbl : Dict String Stats) (k : String) : Int :=
  ((dlookup tbl k).getD ⟨0, 0⟩).hits

/-- The byte total currently recorded under bucket `k` (0 when absent). -/
def statGb (tbl : Dict String Stats) (k : String) : Rat :=
  ((dlookup tbl k).getD ⟨0, 0⟩).gb

/-! ## Concrete fixtures used by witnesses and counterexamples -/

/-- Fixture: a group whose resolved path has length 2. -/
def agW1 : AGroup := ⟨⟨"grp_2", "Team", some "grp_1", []⟩, some "ctr_X", ["Root", "Team"]⟩

/-- Fixture: a group whose resolved path has length 1. -/
def agW2 : AGroup := ⟨⟨"grp_1", "Root", none, ["ctr_X"]⟩, some "ctr_X", ["Root"]⟩

/-- Fixture: a `groupmap` holding both. -/
def gmW : Dict Nat AGroup := [(1, agW1), (2, agW2)]

/-- Fixture: a group carrying a dangling parent reference; its second
contract id's tail `"C-77"` occurs in the display name. -/
def pgW : PGroup := ⟨"grp_9", "Name C-77", some "grp_missing", ["ctr_ZZZ", "ctr_C-77"]⟩

/-- Fixture: a group list in which `"grp_missing"` does not occur. -/
def pgsW : List PGroup := [⟨"grp_1", "Other", none, []⟩]

/-- Fixture: a two-level forest, root and child. -/
def pgRoot : PGroup := ⟨"grp_1", "Root", none, []⟩

/-- Fixture: the child of `pgRoot`. -/
def pgChild : PGroup := ⟨"grp_2", "Team", some "grp_1", []⟩

/-- Fixture: the flat group list of the two. -/
def groupsW : List PGroup := [pgRoot, pgChild]

/-- Fixture: a rank function witnessing that `groupsW` is acyclic. -/
def rkW (gid : String) : Nat := if gid = "grp_2" then 1 else 0

/-- Fixture: two rows for the summary witness — one with two reporting
groups, one with none. -/
def rowW1 : Row :=
  { contract := "C1", cpcode := 100, name := "A", groupPath := [],
    repGroups := ["RG1", "RG2"], hits := some (some 5), gb := some (some 2) }

/-- Fixture: a row with no reporting groups and absent statistics. -/
def rowW2 : Row :=
  { contract := "C1", cpcode := 200, name := "B", groupPath := [],
    repGroups := [], hits := none, gb := none }

/-- Fixture: environment in which usage for entity 100 is fetched under
contract `ctr_X` while the billing catalog assigns the entity to `ctr_Y`. -/
def envC4 : Env :=
  { contracts := [⟨"ctr_X"⟩]
    cpcodes := [⟨100, "A", ⟨"ctr_Y"⟩, [⟨"ongoing"⟩], [⟨"Site_Accel::Site_Accel"⟩]⟩]
    groups := [⟨"grp_1", "Y root", none, ["ctr_Y"]⟩]
    cpcodesOfGroup := fun c _ => if c = "Y" then [⟨"100"⟩] else []
    repGroups := []
    usage := fun c _ _ => if c = "X" then [⟨100, some 7, some 3⟩] else [] }

/-- Fixture: the single row the engine emits on `envC4`; its contract is
`"Y"`, from the catalog, not `"X"`, under which usage was fetched. -/
def rowC4 : Row :=
  { contract := "Y", cpcode := 100, name := "A", groupPath := [], repGroups := [],
    hits := some (some 7), gb := some (some 3) }

/-- Fixture: environment for the C3 witness — entity 100 is absent from
the usage feed and passes both no-traffic filters, entity 200 produces the
only usage statistic. -/
def envC3 : Env :=
  { contracts := [⟨"ctr_C1"⟩]
    cpcodes := [⟨100, "A", ⟨"ctr_C1"⟩, [⟨"ongoing"⟩], [⟨"Site_Accel::Site_Accel"⟩]⟩,
                ⟨200, "B", ⟨"ctr_C1"⟩, [⟨"ongoing"⟩], [⟨"Site_Accel::Site_Accel"⟩]⟩]
    groups := [⟨"grp_1", "C1 root", none, ["ctr_C1"]⟩]
    cpcodesOfGroup := fun c _ => if c = "C1" then [⟨"100"⟩, ⟨"200"⟩] else []
    repGroups := []
    usage := fun c _ _ => if c = "C1" then [⟨200, some 7, some 2⟩] else [] }

/-- Fixture: the usage row the engine emits on `envC3`. -/
def rowC3u : Row :=
  { contract := "C1", cpcode := 200, name := "B", groupPath := [], repGroups := [],
    hits := some (some 7), gb := some (some 2) }

/-- Fixture: the no-traffic row the engine emits on `envC3` for entity
100 (both statistics absent). -/
def rowC3n : Row :=
  { contract := "C1", cpcode := 100, name := "A", groupPath := [], repGroups := [],
    hits := none, gb := none }

/-- Fixture: a plain catalog entity used in witnesses. -/
def cpW : CpCode := ⟨100, "A", ⟨"ctr_C1"⟩, [⟨"ongoing"⟩], [⟨"Site_Accel::Site_Accel"⟩]⟩

/-- Fixture: environment for the C5 counterexample — the usage feed reports
entity 100, but no account group exists, so `mapCpcodeAccgroup` has no entry
for 100. -/
def envC5 : Env :=
  { contracts := [⟨"ctr_C1"⟩]
    cpcodes := [⟨100, "A", ⟨"ctr_C1"⟩, [⟨"ongoing"⟩], [⟨"Site_Accel::Site_Accel"⟩]⟩]
    groups := []
    cpcodesOfGroup := fun _ _ => []
    repGroups := []
    usage := fun c _ _ => if c = "C1" then [⟨100, some 5, some 1⟩] else [] }

/-- Fixture: environment exhibiting the `addedCpCodes` indentation slip —
one contract whose usage feed reports entities 100 then 200, both of which
also pass the no-traffic filters. -/
def envC1 : Env :=
  { contracts := [⟨"ctr_C1"⟩]
    cpcodes := [⟨100, "A", ⟨"ctr_C1"⟩, [⟨"ongoing"⟩], [⟨"Site_Accel::Site_Accel"⟩]⟩,
                ⟨200, "B", ⟨"ctr_C1"⟩, [⟨"ongoing"⟩], [⟨"Site_Accel::Site_Accel"⟩]⟩]
    groups := [⟨"grp_1", "C1 root", none, ["ctr_C1"]⟩]
    cpcodesOfGroup := fun c _ => if c = "C1" then [⟨"100"⟩, ⟨"200"⟩] else []
    repGroups := []
    usage := fun c _ _ => if c = "C1" then [⟨100, some 5, some 1⟩, ⟨200, some 7, some 2⟩]
             else [] }

/-- The cpcodes of the emitted rows, in emission order. -/
def emittedCpcodes (x : Except String (List Row)) : List Nat :=
  match x with
  | Except.ok rows => rows.map (·.cpcode)
  | Except.error _ => []

/-! ## General lemmas about the embedding -/

theorem exc_bind_ok (a : α) (f : α → Except ε β) : (Except.ok a >>= f) = f a := rfl

theorem exc_bind_error (e : ε) (f : α → Except ε β) :
    ((Except.error e : Except ε α) >>= f) = Except.error e := rfl

theorem replAux_id_of_no_sub (pat : List Char) :
    ∀ l : List Char, hasSub pat l = false → replAux pat 0 l = l := by
  intro l
  induction l with
  | nil => intro _; rfl
  | cons c cs ih =>
    intro h
    rw [hasSub, Bool.or_eq_false_iff] at h
    rw [replAux, h.1]
    simp only [Bool.and_false, Bool.false_eq_true, if_false, ih h.2]

theorem flnStep_acc (gm : Dict Nat AGroup) (acc : List String) (gid : Nat) :
    flnStep gm acc gid = (flnStep gm [] gid).map (acc ++ ·) := by
  unfold flnStep
  cases h : dlookup gm gid with
  | none => simp [Option.elim, Except.map, exc_bind_error]
  | some g =>
    simp only [Option.elim, exc_bind_ok]
    split <;> simp [Except.map, pure, Except.pure]

theorem fln_fold_acc (gm : Dict Nat AGroup) :
    ∀ (l : List Nat) (acc : List String),
      List.foldlM (flnStep gm) acc l = (firstLevelNames gm l).map (acc ++ ·) := by
  intro l
  induction l with
  | nil => intro acc; simp [firstLevelNames, Except.map, pure, Except.pure]
  | cons gid l ih =>
    intro acc
    simp only [firstLevelNames] at ih ⊢
    rw [List.foldlM_cons, List.foldlM_cons]
    rw [flnStep_acc gm acc gid]
    cases h : flnStep gm [] gid with
    | error e => simp [Except.map, exc_bind_error]
    | ok t =>
      simp only [Except.map, exc_bind_ok]
      rw [ih (acc ++ t), ih t]
      cases hfl : List.foldlM (flnStep gm) [] l with
      | error e => simp [Except.map]
      | ok b => simp [Except.map, List.append_assoc]

/-! ## Claim C6: first-level group attribution -/

/-- Claim C6: a group an entity belongs to contributes a first-level name to
the attribution exactly when its resolved path has length 2, and then the
contributed name is `path[1]`; groups with any other path length contribute
nothing.  Stated as the exact per-group contribution plus the fact that
groups contribute independently (the loop is an append homomorphism). -/
theorem firstLevel_attribution :
    (∀ (gm : Dict Nat AGroup) (gid : Nat) (g : AGroup), dlookup gm gid = some g →
       firstLevelNames gm [gid] =
         Except.ok (if g.path.length = 2 then [g.path.getD 1 ""] else [])) ∧
    (∀ (gm : Dict Nat AGroup) (l₁ l₂ : List Nat) (a b : List String),
       firstLevelNames gm l₁ = Except.ok a → firstLevelNames gm l₂ = Except.ok b →
       firstLevelNames gm (l₁ ++ l₂) = Except.ok (a ++ b)) := by
  constructor
  · intro gm gid g hg
    have hstep : flnStep gm [] gid =
        Except.ok (if g.path.length = 2 then [g.path.getD 1 ""] else []) := by
      unfold flnStep
      rw [hg]
      simp only [Option.elim, exc_bind_ok]
      split <;> simp [pure, Except.pure]
    rw [firstLevelNames, List.foldlM_cons, hstep, exc_bind_ok, List.foldlM_nil]
    rfl
  · intro gm l₁ l₂ a b h₁ h₂
    rw [firstLevelNames, List.foldlM_append, ← firstLevelNames, h₁, exc_bind_ok,
      fln_fold_acc, h₂]
    simp [Except.map]

/-- Witness for C6 at a concrete `groupmap`: the path-length-2 group
contributes `path[1] = "Team"`, the path-length-1 group contributes
nothing, and the two contributions concatenate. -/
theorem firstLevel_attribution_witness :
    (dlookup gmW 1 = some agW1 ∧
      firstLevelNames gmW [1] =
        Except.ok (if agW1.path.length = 2 then [agW1.path.getD 1 ""] else [])) ∧
    (firstLevelNames gmW [1] = Except.ok ["Team"] ∧
      firstLevelNames gmW [2] = Except.ok [] ∧
      firstLevelNames gmW ([1] ++ [2]) = Except.ok (["Team"] ++ [])) :=
  ⟨⟨by decide, firstLevel_attribution.1 gmW 1 agW1 (by decide)⟩,
   ⟨by decide, by decide,
    firstLevel_attribution.2 gmW [1] [2] ["Team"] [] (by decide) (by decide)⟩⟩

/-! ## Claim C8: identifier normalisation -/

/-- Claim C8, counterexample: `"x_ctr_1"` does not carry the prefix
`"ctr_"` (it does not start with it), yet normalisation changes it to
`"x_1"`, because Python `str.replace` deletes every occurrence of the
pattern, wherever it sits. -/
theorem pyReplace_changes_without_leading_occurrence :
    leadsWith "ctr_".data "x_ctr_1".data = false ∧
    pyReplace "x_ctr_1" "ctr_" = "x_1" ∧ "x_1" ≠ "x_ctr_1" := by decide

/-- Claim C8, amended: the normaliser is a pure function and is a
pass-through exactly on strings in which the pattern does not occur
anywhere as a substring (not merely "does not start with it"): for every
such string the output equals the input unchanged. -/
theorem pyReplace_pass_through (s pat : String)
    (h : hasSub pat.data s.data = false) : pyReplace s pat = s := by
  unfold pyReplace
  rw [replAux_id_of_no_sub pat.data s.data h]

/-- Witness for the amended C8 at a concrete prefix-free identifier. -/
theorem pyReplace_pass_through_witness :
    hasSub "ctr_".data "grp 123".data = false ∧ pyReplace "grp 123" "ctr_" = "grp 123" :=
  ⟨by decide, pyReplace_pass_through "grp 123" "ctr_" (by decide)⟩

/-! ## Claim C10: `rootContract` with an unmatched parent reference -/

/-- Claim C10: when a group's `parentGroupId` matches no group in the list,
`rootContract` does not return `none` immediately: it falls through to
scanning the group's own contract ids and returns the first whose id with
its first four characters removed occurs inside the group's display name,
and `none` exactly when no contract id qualifies. -/
theorem rootContract_parent_unmatched (fuel : Nat) (g : PGroup) (groups : List PGroup)
    (pid : String) (hp : g.parentGroupId = some pid)
    (hmiss : ∀ x ∈ groups, x.groupId ≠ pid) :
    rootContract (fuel + 1) g groups
      = g.contractIds.find? (fun cid => hasSub (cid.data.drop 4) g.groupName.data)
    ∧ ((∀ cid ∈ g.contractIds, hasSub (cid.data.drop 4) g.groupName.data = false) →
        rootContract (fuel + 1) g groups = none) := by
  have hfind : groups.find? (fun x => x.groupId == pid) = none := by
    rw [List.find?_eq_none]
    intro x hx
    simp [hmiss x hx]
  constructor
  · simp only [rootContract, hp, hfind]
  · intro hnone
    simp only [rootContract, hp, hfind]
    rw [List.find?_eq_none]
    intro cid hcid
    simp [hnone cid hcid]

/-- Witness for C10: with the dangling parent, resolution scans the
contract ids and picks `"ctr_C-77"`. -/
theorem rootContract_parent_unmatched_witness :
    (pgW.parentGroupId = some "grp_missing" ∧ (∀ x ∈ pgsW, x.groupId ≠ "grp_missing")) ∧
    (rootContract 3 pgW pgsW
        = pgW.contractIds.find? (fun cid => hasSub (cid.data.drop 4) pgW.groupName.data) ∧
      rootContract 3 pgW pgsW = some "ctr_C-77") :=
  ⟨⟨by decide, by decide⟩,
   (rootContract_parent_unmatched 2 pgW pgsW "grp_missing" (by decide) (by decide)).1,
   by decide⟩

/-! ## Claim C9: `groupPath` terminates on acyclic forests -/

theorem groupPath_stable (groups : List PGroup) (rk : String → Nat)
    (hrk : ∀ g ∈ groups, ∀ p, g.parentGroupId = some p → rk p < rk g.groupId) :
    ∀ n gid, rk gid < n → ∀ f₁ f₂, rk gid < f₁ → rk gid < f₂ →
      groupPath f₁ gid groups = groupPath f₂ gid groups := by
  intro n
  induction n using Nat.strong_induction_on with
  | _ n ih =>
    intro gid hn f₁ f₂ h₁ h₂
    obtain ⟨a, rfl⟩ : ∃ a, f₁ = a + 1 := ⟨f₁ - 1, by omega⟩
    obtain ⟨b, rfl⟩ : ∃ b, f₂ = b + 1 := ⟨f₂ - 1, by omega⟩
    cases hfind : groups.find? (fun g => g.groupId == gid) with
    | none => simp only [groupPath, hfind]
    | some g =>
      have hgid : g.groupId = gid := by
        have := List.find?_some hfind
        simpa [beq_iff_eq] using this
      have hmem : g ∈ groups := List.mem_of_find?_eq_some hfind
      simp only [groupPath, hfind]
      cases hpar : g.parentGroupId with
      | none => rfl
      | some p =>
        show groupPath a p groups ++ [g.groupName] = groupPath b p groups ++ [g.groupName]
        have hlt : rk p < rk gid := hgid ▸ hrk g hmem p hpar
        rw [ih (rk gid) hn p (by omega) a b (by omega) (by omega)]

/-- Claim C9: on any flat group list whose parent references admit a rank
function (the acyclic-forest hypothesis), `groupPath` terminates — the
result is independent of the fuel once the fuel exceeds the rank — and
satisfies the defining recurrence: a group with a parent yields the
parent's path with its own name appended, a parentless group yields the
singleton of its own name (so paths are ordered root to leaf). -/
theorem groupPath_terminating (groups : List PGroup) (rk : String → Nat)
    (hrk : ∀ g ∈ groups, ∀ p, g.parentGroupId = some p → rk p < rk g.groupId) :
    (∀ gid f₁ f₂, rk gid < f₁ → rk gid < f₂ →
       groupPath f₁ gid groups = groupPath f₂ gid groups) ∧
    (∀ gid g p, groups.find? (fun x => x.groupId == gid) = some g →
       g.parentGroupId = some p →
       groupPath (rk gid + 1) gid groups = groupPath (rk p + 1) p groups ++ [g.groupName]) ∧
    (∀ gid g fuel, groups.find? (fun x => x.groupId == gid) = some g →
       g.parentGroupId = none → groupPath (fuel + 1) gid groups = [g.groupName]) := by
  refine ⟨?_, ?_, ?_⟩
  · intro gid f₁ f₂ h₁ h₂
    exact groupPath_stable groups rk hrk (rk gid + 1) gid (by omega) f₁ f₂ h₁ h₂
  · intro gid g p hfind hpar
    have hgid : g.groupId = gid := by
      have := List.find?_some hfind
      simpa [beq_iff_eq] using this
    have hmem : g ∈ groups := List.mem_of_find?_eq_some hfind
    have hlt : rk p < rk gid := hgid ▸ hrk g hmem p hpar
    have h1 : groupPath (rk gid + 1) gid groups
        = groupPath (rk gid) p groups ++ [g.groupName] := by
      simp only [groupPath, hfind, hpar]
    rw [h1, groupPath_stable groups rk hrk (rk gid + 1) p (by omega) (rk gid) (rk p + 1)
      (by omega) (by omega)]
  · intro gid g fuel hfind hpar
    simp only [groupPath, hfind, hpar]

/-- Witness for C9 on the concrete two-level forest. -/
theorem groupPath_terminating_witness :
    (∀ g ∈ groupsW, ∀ p, g.parentGroupId = some p → rkW p < rkW g.groupId) ∧
    groupPath 2 "grp_2" groupsW = groupPath 5 "grp_2" groupsW ∧
    groupPath (rkW "grp_2" + 1) "grp_2" groupsW
      = groupPath (rkW "grp_1" + 1) "grp_1" groupsW ++ ["Team"] ∧
    groupPath 1 "grp_1" groupsW = ["Root"] := by
  have hrk : ∀ g ∈ groupsW, ∀ p, g.parentGroupId = some p → rkW p < rkW g.groupId := by
    intro g hg p hp
    simp only [groupsW, List.mem_cons, List.not_mem_nil, or_false] at hg
    rcases hg with rfl | rfl
    · simp [pgRoot] at hp
    · simp only [pgChild] at hp
      obtain rfl : "grp_1" = p := by simpa using hp
      decide
  refine ⟨hrk, ?_, ?_, ?_⟩
  · exact (groupPath_terminating groupsW rkW hrk).1 "grp_2" 2 5 (by decide) (by decide)
  · exact (groupPath_terminating groupsW rkW hrk).2.1 "grp_2" pgChild "grp_1"
      (by decide) (by decide)
  · exact (groupPath_terminating groupsW rkW hrk).2.2 "grp_1" pgRoot 0 (by decide) (by decide)

/-! ## Claim C7: `month_add` round trip -/

theorem digit_lemma (d : Nat) (h : d < 10) :
    isDigitCh (digitCh d) = true ∧ digitVal (digitCh d) = d := by
  interval_cases d <;> exact ⟨by decide, by decide⟩

theorem digit_ne_dash (c : Char) (h : isDigitCh c = true) : c ≠ '-' := by
  intro hc
  subst hc
  exact absurd h (by decide)

theorem digitsBE_digits : ∀ (f n : Nat), ∀ c ∈ digitsBE f n, isDigitCh c = true := by
  intro f
  induction f with
  | zero => intro n c hc; simp [digitsBE] at hc
  | succ f ih =>
    intro n c hc
    rw [digitsBE] at hc
    by_cases h : n = 0
    · simp [h] at hc
    · rw [if_neg h, List.mem_append] at hc
      rcases hc with hc | hc
      · exact ih _ _ hc
      · rw [List.mem_singleton] at hc
        subst hc
        exact (digit_lemma (n % 10) (Nat.mod_lt _ (by norm_num))).1

theorem digitsBE_foldl : ∀ (f n a : Nat), n < f →
    (digitsBE f n).foldl digAcc a = a * 10 ^ (digitsBE f n).length + n := by
  intro f
  induction f with
  | zero => intro n a h; exact absurd h (Nat.not_lt_zero n)
  | succ f ih =>
    intro n a h
    rw [digitsBE]
    by_cases h0 : n = 0
    · subst h0; simp
    · rw [if_neg h0, List.foldl_append]
      have hdiv : n / 10 < n := Nat.div_lt_self (by omega) (by norm_num)
      rw [ih (n / 10) a (by omega)]
      have hlen : (digitsBE f (n / 10) ++ [digitCh (n % 10)]).length
          = (digitsBE f (n / 10)).length + 1 := by simp
      rw [hlen]
      simp only [List.foldl_cons, List.foldl_nil, digAcc]
      rw [(digit_lemma (n % 10) (Nat.mod_lt _ (by norm_num))).2]
      have hsplit : 10 * (n / 10) + n % 10 = n := Nat.div_add_mod n 10
      calc (a * 10 ^ (digitsBE f (n / 10)).length + n / 10) * 10 + n % 10
          = a * (10 ^ (digitsBE f (n / 10)).length * 10) + (10 * (n / 10) + n % 10) := by
            ring
        _ = a * 10 ^ ((digitsBE f (n / 10)).length + 1) + n := by rw [hsplit, pow_succ]

theorem natRepr_digits (n : Nat) : ∀ c ∈ natRepr n, isDigitCh c = true := by
  intro c hc
  unfold natRepr at hc
  by_cases h : n = 0
  · rw [if_pos h, List.mem_singleton] at hc
    subst hc
    decide
  · rw [if_neg h] at hc
    exact digitsBE_digits (n + 1) n c hc

theorem natRepr_ne_nil (n : Nat) : natRepr n ≠ [] := by
  unfold natRepr
  by_cases h : n = 0
  · simp [h]
  · rw [if_neg h, digitsBE]
    simp [h]

theorem foldl_zeros (k : Nat) : (List.replicate k '0').foldl digAcc 0 = 0 := by
  induction k with
  | zero => rfl
  | succ k ih => simpa [List.replicate_succ, digAcc] using ih

theorem foldl_natRepr (n : Nat) : (natRepr n).foldl digAcc 0 = n := by
  unfold natRepr
  by_cases h : n = 0
  · subst h; decide
  · rw [if_neg h, digitsBE_foldl (n + 1) n 0 (by omega)]
    simp

theorem parseNat_padded (k n : Nat) :
    parseNat (List.replicate k '0' ++ natRepr n) = some n := by
  unfold parseNat
  have hne : (List.replicate k '0' ++ natRepr n).isEmpty = false := by
    rw [List.isEmpty_eq_false_iff_exists_mem]
    obtain ⟨c, cs, hcs⟩ := List.exists_cons_of_ne_nil (natRepr_ne_nil n)
    exact ⟨c, by simp [hcs]⟩
  have hall : (List.replicate k '0' ++ natRepr n).all isDigitCh = true := by
    rw [List.all_append, Bool.and_eq_true]
    constructor
    · rw [List.all_eq_true]
      intro c hc
      rw [List.eq_of_mem_replicate hc]
      decide
    · rw [List.all_eq_true]
      exact natRepr_digits n
  rw [hne, hall]
  simp only [Bool.false_eq_true, if_false, if_true]
  rw [List.foldl_append, foldl_zeros, foldl_natRepr]

theorem padNum_nonneg (w : Nat) (i : Int) (h : 0 ≤ i) :
    padNum w i = List.replicate (w - (natRepr i.toNat).length) '0' ++ natRepr i.toNat := by
  unfold padNum
  rw [if_neg (by omega)]

theorem parseNat_padNum (w : Nat) (i : Int) (h : 0 ≤ i) :
    parseNat (padNum w i) = some i.toNat := by
  rw [padNum_nonneg w i h, parseNat_padded]

theorem padNum_no_dash (w : Nat) (i : Int) (h : 0 ≤ i) :
    ∀ c ∈ padNum w i, c ≠ '-' := by
  rw [padNum_nonneg w i h]
  intro c hc
  rw [List.mem_append] at hc
  rcases hc with hc | hc
  · rw [List.eq_of_mem_replicate hc]; decide
  · exact digit_ne_dash c (natRepr_digits _ c hc)

theorem splitD_no_dash : ∀ l : List Char, (∀ c ∈ l, c ≠ '-') → splitD l = [l] := by
  intro l
  induction l with
  | nil => intro _; rfl
  | cons c cs ih =>
    intro h
    have hc : (c == '-') = false := beq_eq_false_iff_ne.mpr (h c (by simp))
    rw [splitD, hc]
    simp only [Bool.false_eq_true, if_false]
    rw [ih (fun d hd => h d (by simp [hd]))]

theorem splitD_mid : ∀ (a b : List Char), (∀ c ∈ a, c ≠ '-') →
    splitD (a ++ '-' :: b) = a :: splitD b := by
  intro a
  induction a with
  | nil => intro b _; simp [splitD]
  | cons c a' ih =>
    intro b h
    have hc : (c == '-') = false := beq_eq_false_iff_ne.mpr (h c (by simp))
    simp only [List.cons_append, splitD, hc, Bool.false_eq_true, if_false, List.append_eq]
    rw [ih b (fun d hd => h d (by simp [hd]))]

theorem normUpAux_spec : ∀ (f : Nat) (y mm : Int), mm ≤ 12 + 12 * (f : Int) →
    12 * (normUpAux f y mm).1 + (normUpAux f y mm).2 = 12 * y + mm ∧
    (normUpAux f y mm).2 ≤ 12 ∧
    (1 ≤ mm → 1 ≤ (normUpAux f y mm).2) := by
  intro f
  induction f with
  | zero =>
    intro y mm h
    simp only [normUpAux]
    refine ⟨trivial, by push_cast at h; omega, fun hm => hm⟩
  | succ f ih =>
    intro y mm h
    rw [normUpAux]
    by_cases h12 : 12 < mm
    · rw [if_pos h12]
      obtain ⟨A, B, C⟩ := ih (y + 1) (mm - 12) (by push_cast at h ⊢; omega)
      exact ⟨by omega, B, fun _ => C (by omega)⟩
    · rw [if_neg h12]
      exact ⟨rfl, by omega, fun hm => hm⟩

theorem normUp_spec (y mm : Int) :
    12 * (normUp y mm).1 + (normUp y mm).2 = 12 * y + mm ∧
    (normUp y mm).2 ≤ 12 ∧ (1 ≤ mm → 1 ≤ (normUp y mm).2) := by
  unfold normUp
  exact normUpAux_spec mm.toNat y mm (by omega)

theorem normDownAux_spec : ∀ (f : Nat) (y mm : Int), 1 - mm ≤ 12 * (f : Int) →
    12 * (normDownAux f y mm).1 + (normDownAux f y mm).2 = 12 * y + mm ∧
    1 ≤ (normDownAux f y mm).2 ∧
    (mm ≤ 12 → (normDownAux f y mm).2 ≤ 12) := by
  intro f
  induction f with
  | zero =>
    intro y mm h
    simp only [normDownAux]
    refine ⟨trivial, by push_cast at h; omega, fun hm => hm⟩
  | succ f ih =>
    intro y mm h
    rw [normDownAux]
    by_cases h1 : mm < 1
    · rw [if_pos h1]
      obtain ⟨A, B, C⟩ := ih (y - 1) (mm + 12) (by push_cast at h ⊢; omega)
      exact ⟨by omega, B, fun _ => C (by omega)⟩
    · rw [if_neg h1]
      exact ⟨rfl, by omega, fun hm => hm⟩

theorem normDown_spec (y mm : Int) :
    12 * (normDown y mm).1 + (normDown y mm).2 = 12 * y + mm ∧
    1 ≤ (normDown y mm).2 ∧ (mm ≤ 12 → (normDown y mm).2 ≤ 12) := by
  unfold normDown
  exact normDownAux_spec (1 - mm).toNat y mm (by omega)

theorem month_add_fmt (y mm : Int) (hy : 0 ≤ y) (hm : 0 ≤ mm) (n : Int) :
    month_add (fmtMonth y mm) n =
      some (fmtMonth (normDown (normUp y (mm + n)).1 (normUp y (mm + n)).2).1
                     (normDown (normUp y (mm + n)).1 (normUp y (mm + n)).2).2) := by
  have hdata : (fmtMonth y mm).data = padNum 4 y ++ '-' :: padNum 2 mm := rfl
  rw [month_add, hdata, splitD_mid _ _ (padNum_no_dash 4 y hy),
    splitD_no_dash _ (padNum_no_dash 2 mm hm)]
  simp only [parseNat_padNum 4 y hy, parseNat_padNum 2 mm hm,
    Int.toNat_of_nonneg hy, Int.toNat_of_nonneg hm]
  rfl

/-- Claim C7, counterexample: starting from the valid month `"0001-01"`,
adding `-13` months lands in a negative year formatted `"-001-12"`, and the
second `month_add` cannot parse that string back (Python raises ValueError
unpacking the three `'-'`-separated pieces), so the round trip does not
return `"0001-01"`. -/
theorem month_add_round_trip_cex :
    month_add "0001-01" (-13) = some "-001-12" ∧ month_add "-001-12" (-(-13)) = none := by
  constructor <;> rfl

/-- Claim C7, amended: for every canonically formatted month `M` (year ≥ 0,
month in 1..12) and every integer `N` such that the intermediate result of
the first addition does not fall before year 0 (`12*y + (mm-1) + N ≥ 0`),
`month_add (month_add M N) (-N) = M`; year boundaries roll over correctly in
both directions.  Without the intermediate-year condition the inner result
formats with a negative year and the outer call fails to parse it. -/
theorem month_add_round_trip (y mm n : Int) (hy : 0 ≤ y) (hm1 : 1 ≤ mm)
    (hm2 : mm ≤ 12) (hmid : 0 ≤ 12 * y + (mm - 1) + n) :
    ∃ s, month_add (fmtMonth y mm) n = some s ∧
      month_add s (-n) = some (fmtMonth y mm) := by
  have hU := normUp_spec y (mm + n)
  have hD := normDown_spec (normUp y (mm + n)).1 (normUp y (mm + n)).2
  set d := normDown (normUp y (mm + n)).1 (normUp y (mm + n)).2 with hd
  have hsum : 12 * d.1 + d.2 = 12 * y + (mm + n) := by
    rw [hd, hD.1, hU.1]
  have hd2lo : 1 ≤ d.2 := hD.2.1
  have hd2hi : d.2 ≤ 12 := hD.2.2 hU.2.1
  have hd1 : 0 ≤ d.1 := by omega
  refine ⟨fmtMonth d.1 d.2, ?_, ?_⟩
  · rw [month_add_fmt y mm hy (by omega) n]
  · rw [month_add_fmt d.1 d.2 hd1 (by omega) (-n)]
    have hU2 := normUp_spec d.1 (d.2 + -n)
    have hD2 := normDown_spec (normUp d.1 (d.2 + -n)).1 (normUp d.1 (d.2 + -n)).2
    set e := normDown (normUp d.1 (d.2 + -n)).1 (normUp d.1 (d.2 + -n)).2 with he
    have hsum2 : 12 * e.1 + e.2 = 12 * d.1 + (d.2 + -n) := by
      rw [he, hD2.1, hU2.1]
    have he2lo : 1 ≤ e.2 := hD2.2.1
    have he2hi : e.2 ≤ 12 := hD2.2.2 hU2.2.1
    have hy' : e.1 = y := by omega
    have hm' : e.2 = mm := by omega
    rw [hy', hm']

/-- Witness for the amended C7 at `M = "2024-03"`, `N = -5` (a backward
roll over a year boundary). -/
theorem month_add_round_trip_witness :
    ((0 : Int) ≤ 2024 ∧ (1 : Int) ≤ 3 ∧ (3 : Int) ≤ 12 ∧
      (0 : Int) ≤ 12 * 2024 + (3 - 1) + -5) ∧
    ∃ s, month_add (fmtMonth 2024 3) (-5) = some s ∧
      month_add s (-(-5)) = some (fmtMonth 2024 3) :=
  ⟨⟨by decide, by decide, by decide, by decide⟩,
   month_add_round_trip 2024 3 (-5) (by decide) (by decide) (by decide) (by decide)⟩

/-! ## Claim C2: the summary identity -/

theorem dlookup_nil [BEq κ] (k : κ) : dlookup ([] : Dict κ ν) k = none := rfl

theorem dlookup_cons [BEq κ] (k₀ : κ) (v₀ : ν) (rest : Dict κ ν) (k : κ) :
    dlookup ((k₀, v₀) :: rest) k = if k₀ == k then some v₀ else dlookup rest k := by
  unfold dlookup
  rw [List.find?]
  by_cases h : (k₀ == k) = true
  · simp [h]
  · simp [h]

theorem dlookup_dinsert_self [BEq κ] [LawfulBEq κ] (m : Dict κ ν) (k : κ) (v : ν) :
    dlookup (dinsert m k v) k = some v := by
  induction m with
  | nil => simp [dinsert, dlookup_cons]
  | cons p rest ih =>
    obtain ⟨k₀, v₀⟩ := p
    rw [dinsert]
    by_cases h : (k₀ == k) = true
    · rw [if_pos h, dlookup_cons, if_pos h]
    · rw [if_neg h, dlookup_cons, if_neg h, ih]

theorem dlookup_dinsert_other [BEq κ] [LawfulBEq κ] (m : Dict κ ν) (k k' : κ) (v : ν)
    (hne : k' ≠ k) : dlookup (dinsert m k v) k' = dlookup m k' := by
  have hkk : (k == k') = false := beq_eq_false_iff_ne.mpr (fun h => hne h.symm)
  induction m with
  | nil => simp [dinsert, dlookup_cons, hkk]
  | cons p rest ih =>
    obtain ⟨k₀, v₀⟩ := p
    rw [dinsert]
    by_cases h : (k₀ == k) = true
    · have hk0 : k₀ = k := by simpa using h
      rw [if_pos h]
      subst hk0
      simp [dlookup_cons, hkk]
    · rw [if_neg h, dlookup_cons, dlookup_cons, ih]

theorem totalHits_cons (k : String) (v : Stats) (rest : Dict String Stats) :
    totalHits ((k, v) :: rest) = v.hits + totalHits rest := by
  simp [totalHits]

theorem totalGb_cons (k : String) (v : Stats) (rest : Dict String Stats) :
    totalGb ((k, v) :: rest) = v.gb + totalGb rest := by
  simp [totalGb]

theorem bucketAdd_total (tbl : Dict String Stats) (k : String) (dh : Int) (dg : Rat) :
    totalHits (bucketAdd tbl k dh dg) = totalHits tbl + dh ∧
    totalGb (bucketAdd tbl k dh dg) = totalGb tbl + dg := by
  unfold bucketAdd
  induction tbl with
  | nil =>
    simp [dinsert, dlookup_nil, totalHits, totalGb]
  | cons p rest ih =>
    obtain ⟨k₀, v₀⟩ := p
    rw [dlookup_cons, dinsert]
    by_cases h : (k₀ == k) = true
    · rw [if_pos h, if_pos h]
      simp only [Option.getD_some]
      rw [totalHits_cons, totalHits_cons, totalGb_cons, totalGb_cons]
      constructor <;> ring
    · rw [if_neg h, if_neg h]
      rw [totalHits_cons, totalHits_cons, totalGb_cons, totalGb_cons]
      obtain ⟨ih1, ih2⟩ := ih
      constructor
      · rw [ih1]; ring
      · rw [ih2]; ring

theorem bucketAdd_stat_self (tbl : Dict String Stats) (k : String) (dh : Int) (dg : Rat) :
    statHits (bucketAdd tbl k dh dg) k = statHits tbl k + dh ∧
    statGb (bucketAdd tbl k dh dg) k = statGb tbl k + dg := by
  unfold bucketAdd statHits statGb
  rw [dlookup_dinsert_self]
  simp

theorem bucketAdd_stat_other (tbl : Dict String Stats) (k k' : String) (dh : Int)
    (dg : Rat) (hne : k' ≠ k) :
    statHits (bucketAdd tbl k dh dg) k' = statHits tbl k' ∧
    statGb (bucketAdd tbl k dh dg) k' = statGb tbl k' := by
  unfold bucketAdd statHits statGb
  rw [dlookup_dinsert_other _ _ _ _ hne]
  exact ⟨rfl, rfl⟩

theorem groupFold_total (h : Nat) (g : Rat) :
    ∀ (names : List String) (tbl : Dict String Stats),
      totalHits (names.foldl (fun t rg => bucketAdd t rg (h : Int) g) tbl)
        = totalHits tbl + (names.length : Int) * (h : Int) ∧
      totalGb (names.foldl (fun t rg => bucketAdd t rg (h : Int) g) tbl)
        = totalGb tbl + (names.length : Rat) * g := by
  intro names
  induction names with
  | nil => intro tbl; simp
  | cons nm rest ih =>
    intro tbl
    rw [List.foldl_cons]
    obtain ⟨ih1, ih2⟩ := ih (bucketAdd tbl nm (h : Int) g)
    obtain ⟨b1, b2⟩ := bucketAdd_total tbl nm (h : Int) g
    constructor
    · rw [ih1, b1]
      simp only [List.length_cons]
      push_cast
      ring
    · rw [ih2, b2]
      simp only [List.length_cons]
      push_cast
      ring

theorem groupFold_stat_not_mem (h : Nat) (g : Rat) :
    ∀ (names : List String) (tbl : Dict String Stats) (nm : String), nm ∉ names →
      statHits (names.foldl (fun t rg => bucketAdd t rg (h : Int) g) tbl) nm
        = statHits tbl nm ∧
      statGb (names.foldl (fun t rg => bucketAdd t rg (h : Int) g) tbl) nm
        = statGb tbl nm := by
  intro names
  induction names with
  | nil => intro tbl nm _; exact ⟨rfl, rfl⟩
  | cons a rest ih =>
    intro tbl nm hnm
    rw [List.mem_cons] at hnm
    push_neg at hnm
    rw [List.foldl_cons]
    obtain ⟨ih1, ih2⟩ := ih (bucketAdd tbl a (h : Int) g) nm hnm.2
    obtain ⟨b1, b2⟩ := bucketAdd_stat_other tbl a nm (h : Int) g hnm.1
    exact ⟨by rw [ih1, b1], by rw [ih2, b2]⟩

theorem groupFold_stat_count_one (h : Nat) (g : Rat) :
    ∀ (names : List String) (tbl : Dict String Stats) (nm : String),
      names.count nm = 1 →
      statHits (names.foldl (fun t rg => bucketAdd t rg (h : Int) g) tbl) nm
        = statHits tbl nm + (h : Int) ∧
      statGb (names.foldl (fun t rg => bucketAdd t rg (h : Int) g) tbl) nm
        = statGb tbl nm + g := by
  intro names
  induction names with
  | nil => intro tbl nm hc; simp [List.count_nil] at hc
  | cons a rest ih =>
    intro tbl nm hc
    rw [List.foldl_cons]
    by_cases ha : a = nm
    · subst ha
      rw [List.count_cons_self] at hc
      have hrest : a ∉ rest := by
        rw [← List.count_eq_zero]
        omega
      obtain ⟨f1, f2⟩ := groupFold_stat_not_mem h g rest (bucketAdd tbl a (h : Int) g) a hrest
      obtain ⟨b1, b2⟩ := bucketAdd_stat_self tbl a (h : Int) g
      exact ⟨by rw [f1, b1], by rw [f2, b2]⟩
    · rw [List.count_cons_of_ne (fun hh => ha hh.symm)] at hc
      obtain ⟨ih1, ih2⟩ := ih (bucketAdd tbl a (h : Int) g) nm hc
      obtain ⟨b1, b2⟩ := bucketAdd_stat_other tbl a nm (h : Int) g (fun hh => ha hh.symm)
      exact ⟨by rw [ih1, b1], by rw [ih2, b2]⟩

theorem sumStep_eq (tbl : Dict String Stats) (row : Row) (h : Nat) (g : Rat)
    (hh : pyGet row.hits 0 = some h) (hg : pyGet row.gb 0 = some g) :
    sumStep tbl row = Except.ok (
      if 1 < row.repGroups.length then
        bucketAdd
          (if row.repGroups.length = 0 then
            bucketAdd (row.repGroups.foldl (fun t rg => bucketAdd t rg (h : Int) g) tbl)
              "#None" (h : Int) g
          else row.repGroups.foldl (fun t rg => bucketAdd t rg (h : Int) g) tbl)
          "#Multiple" (-((row.repGroups.length : Int) - 1) * (h : Int))
          (-((row.repGroups.length : Rat) - 1) * g)
      else
        if row.repGroups.length = 0 then
          bucketAdd (row.repGroups.foldl (fun t rg => bucketAdd t rg (h : Int) g) tbl)
            "#None" (h : Int) g
        else row.repGroups.foldl (fun t rg => bucketAdd t rg (h : Int) g) tbl) := by
  unfold sumStep
  rw [hh, hg]
  rfl

theorem sumStep_total (tbl : Dict String Stats) (row : Row) (h : Nat) (g : Rat)
    (hh : pyGet row.hits 0 = some h) (hg : pyGet row.gb 0 = some g) :
    ∃ tbl', sumStep tbl row = Except.ok tbl' ∧
      totalHits tbl' = totalHits tbl + (h : Int) ∧
      totalGb tbl' = totalGb tbl + g := by
  rw [sumStep_eq tbl row h g hh hg]
  refine ⟨_, rfl, ?_⟩
  obtain ⟨f1, f2⟩ := groupFold_total h g row.repGroups tbl
  obtain ⟨n1, n2⟩ := bucketAdd_total
    (row.repGroups.foldl (fun t rg => bucketAdd t rg (h : Int) g) tbl) "#None" (h : Int) g
  split_ifs with h1 h0 h0
  · omega
  · obtain ⟨m1, m2⟩ := bucketAdd_total
      (row.repGroups.foldl (fun t rg => bucketAdd t rg (h : Int) g) tbl) "#Multiple"
      (-((row.repGroups.length : Int) - 1) * (h : Int))
      (-((row.repGroups.length : Rat) - 1) * g)
    constructor
    · rw [m1, f1]; ring
    · rw [m2, f2]; ring
  · rw [h0] at f1 f2
    constructor
    · rw [n1, f1]; push_cast; ring
    · rw [n2, f2]; push_cast; ring
  · have hlen : row.repGroups.length = 1 := by omega
    rw [hlen] at f1 f2
    constructor
    · rw [f1]; push_cast; ring
    · rw [f2]; push_cast; ring

theorem sumFold_ok : ∀ (rows : List Row) (tbl : Dict String Stats),
    (∀ r ∈ rows, pyGet r.hits 0 ≠ none ∧ pyGet r.gb 0 ≠ none) →
    ∃ out, List.foldlM sumStep tbl rows = Except.ok out ∧
      totalHits out = totalHits tbl + (rows.map hitVal).sum ∧
      totalGb out = totalGb tbl + (rows.map gbVal).sum := by
  intro rows
  induction rows with
  | nil => intro tbl _; exact ⟨tbl, rfl, by simp, by simp⟩
  | cons row rest ih =>
    intro tbl hall
    obtain ⟨hh0, hg0⟩ := hall row (by simp)
    obtain ⟨h, hh⟩ := Option.ne_none_iff_exists'.mp hh0
    obtain ⟨g, hg⟩ := Option.ne_none_iff_exists'.mp hg0
    obtain ⟨tbl', hstep, ht1, ht2⟩ := sumStep_total tbl row h g hh hg
    obtain ⟨out, hout, ho1, ho2⟩ := ih tbl' (fun r hr => hall r (by simp [hr]))
    refine ⟨out, ?_, ?_, ?_⟩
    · rw [List.foldlM_cons, hstep, exc_bind_ok, hout]
    · rw [ho1, ht1]
      have : hitVal row = (h : Int) := by
        unfold hitVal
        rw [hh]
        simp
      rw [List.map_cons, List.sum_cons, this]
      ring
    · rw [ho2, ht2]
      have : gbVal row = g := by
        unfold gbVal
        rw [hg]
        simp
      rw [List.map_cons, List.sum_cons, this]
      ring

/-- Claim C2: (1) for every finite row list with well-formed optional
statistics, aggregation succeeds and the sum over every bucket of the final
table — named group totals plus `#None` plus `#Multiple` — equals the sum
of every row's statistic counted exactly once, exactly for hit counts and
exactly (hence within any tolerance) for byte volumes; (2) for a row
carrying `k > 1` reporting groups, each of its groups is credited the full
statistic and the `#Multiple` bucket is decremented by `(k-1)` times the
statistic. -/
theorem sumRepGroups_identity :
    (∀ rows : List Row, (∀ r ∈ rows, pyGet r.hits 0 ≠ none ∧ pyGet r.gb 0 ≠ none) →
      ∃ tbl, sumRepGroups rows = Except.ok tbl ∧
        totalHits tbl = (rows.map hitVal).sum ∧
        totalGb tbl = (rows.map gbVal).sum) ∧
    (∀ (tbl : Dict String Stats) (row : Row) (h : Nat) (g : Rat),
      pyGet row.hits 0 = some h → pyGet row.gb 0 = some g →
      1 < row.repGroups.length → "#Multiple" ∉ row.repGroups →
      ∃ tbl', sumStep tbl row = Except.ok tbl' ∧
        statHits tbl' "#Multiple"
          = statHits tbl "#Multiple" - ((row.repGroups.length : Int) - 1) * (h : Int) ∧
        statGb tbl' "#Multiple"
          = statGb tbl "#Multiple" - ((row.repGroups.length : Rat) - 1) * g ∧
        (∀ nm ∈ row.repGroups, row.repGroups.count nm = 1 →
          statHits tbl' nm = statHits tbl nm + (h : Int) ∧
          statGb tbl' nm = statGb tbl nm + g)) := by
  constructor
  · intro rows hall
    obtain ⟨out, hout, h1, h2⟩ := sumFold_ok rows [] hall
    exact ⟨out, hout, by simpa [totalHits] using h1, by simpa [totalGb] using h2⟩
  · intro tbl row h g hh hg hlen hmul
    rw [sumStep_eq tbl row h g hh hg]
    simp only [if_neg (by omega : ¬ row.repGroups.length = 0), if_pos hlen]
    refine ⟨_, rfl, ?_, ?_, ?_⟩
    · obtain ⟨b1, _⟩ := bucketAdd_stat_self
        (row.repGroups.foldl (fun t rg => bucketAdd t rg (h : Int) g) tbl) "#Multiple"
        (-((row.repGroups.length : Int) - 1) * (h : Int))
        (-((row.repGroups.length : Rat) - 1) * g)
      obtain ⟨f1, _⟩ := groupFold_stat_not_mem h g row.repGroups tbl "#Multiple" hmul
      rw [b1, f1]
      ring
    · obtain ⟨_, b2⟩ := bucketAdd_stat_self
        (row.repGroups.foldl (fun t rg => bucketAdd t rg (h : Int) g) tbl) "#Multiple"
        (-((row.repGroups.length : Int) - 1) * (h : Int))
        (-((row.repGroups.length : Rat) - 1) * g)
      obtain ⟨_, f2⟩ := groupFold_stat_not_mem h g row.repGroups tbl "#Multiple" hmul
      rw [b2, f2]
      ring
    · intro nm hnm hcount
      have hne : nm ≠ "#Multiple" := fun hq => hmul (hq ▸ hnm)
      obtain ⟨b1, b2⟩ := bucketAdd_stat_other
        (row.repGroups.foldl (fun t rg => bucketAdd t rg (h : Int) g) tbl) "#Multiple" nm
        (-((row.repGroups.length : Int) - 1) * (h : Int))
        (-((row.repGroups.length : Rat) - 1) * g) hne
      obtain ⟨f1, f2⟩ := groupFold_stat_count_one h g row.repGroups tbl nm hcount
      exact ⟨by rw [b1, f1], by rw [b2, f2]⟩

/-- Witness for C2 on the two concrete rows. -/
theorem sumRepGroups_identity_witness :
    ((∀ r ∈ [rowW1, rowW2], pyGet r.hits 0 ≠ none ∧ pyGet r.gb 0 ≠ none) ∧
      ∃ tbl, sumRepGroups [rowW1, rowW2] = Except.ok tbl ∧
        totalHits tbl = ([rowW1, rowW2].map hitVal).sum ∧
        totalGb tbl = ([rowW1, rowW2].map gbVal).sum) ∧
    (pyGet rowW1.hits 0 = some 5 ∧ pyGet rowW1.gb 0 = some 2 ∧
      1 < rowW1.repGroups.length ∧ "#Multiple" ∉ rowW1.repGroups ∧
      ∃ tbl', sumStep [] rowW1 = Except.ok tbl' ∧
        statHits tbl' "#Multiple"
          = statHits ([] : Dict String Stats) "#Multiple"
            - ((rowW1.repGroups.length : Int) - 1) * ((5 : Nat) : Int) ∧
        statGb tbl' "#Multiple"
          = statGb ([] : Dict String Stats) "#Multiple"
            - ((rowW1.repGroups.length : Rat) - 1) * 2 ∧
        (∀ nm ∈ rowW1.repGroups, rowW1.repGroups.count nm = 1 →
          statHits tbl' nm = statHits ([] : Dict String Stats) nm + ((5 : Nat) : Int) ∧
          statGb tbl' nm = statGb ([] : Dict String Stats) nm + 2)) :=
  ⟨⟨by decide, sumRepGroups_identity.1 [rowW1, rowW2] (by decide)⟩,
   ⟨by decide, by decide, by decide, by decide,
    sumRepGroups_identity.2 [] rowW1 5 2 (by decide) (by decide) (by decide) (by decide)⟩⟩

/-! ## Engine lemmas: the usage phase -/

theorem exc_bind_ok_inv {ε α β : Type} {a : Except ε α} {f : α → Except ε β} {c : β}
    (h : (a >>= f) = Except.ok c) : ∃ b, a = Except.ok b ∧ f b = Except.ok c := by
  cases a with
  | error e => rw [exc_bind_error] at h; exact absurd h (by simp)
  | ok b => exact ⟨b, rfl, h⟩

theorem processStat_ok {cm : Dict Nat CpCode} {gm : Dict Nat AGroup}
    {am : Dict Nat (List Nat)} {rm : Dict Nat (List RepGroup)} {stat : CpStat} {r : Row}
    (h : processStat cm gm am rm stat = Except.ok r) :
    ∃ c gids gp, dlookup cm stat.cpcode = some c ∧ dlookup am stat.cpcode = some gids ∧
      firstLevelNames gm gids = Except.ok gp ∧
      r = { contract := pyReplace c.accessGroup.contractId "ctr_", cpcode := stat.cpcode,
            name := c.cpcodeName, groupPath := gp, repGroups := repNames rm stat.cpcode,
            hits := some stat.hits, gb := some stat.gb } := by
  unfold processStat at h
  cases hc : dlookup cm stat.cpcode with
  | none => rw [hc] at h; exact absurd h (by simp [Option.elim, exc_bind_error])
  | some c =>
    rw [hc] at h
    simp only [Option.elim, exc_bind_ok] at h
    cases hg : dlookup am stat.cpcode with
    | none => rw [hg] at h; exact absurd h (by simp [Option.elim, exc_bind_error])
    | some gids =>
      rw [hg] at h
      simp only [Option.elim, exc_bind_ok] at h
      cases hfl : firstLevelNames gm gids with
      | error e => rw [hfl] at h; exact absurd h (by simp [exc_bind_error])
      | ok gp =>
        rw [hfl] at h
        rw [exc_bind_ok] at h
        refine ⟨c, gids, gp, rfl, rfl, hfl, ?_⟩
        have := h.symm
        simpa [pure, Except.pure] using this

theorem usageStatStep_ok {cm : Dict Nat CpCode} {gm : Dict Nat AGroup}
    {am : Dict Nat (List Nat)} {rm : Dict Nat (List RepGroup)} {st st' : UState}
    {stat : CpStat} (h : usageStatStep cm gm am rm st stat = Except.ok st') :
    ∃ r, processStat cm gm am rm stat = Except.ok r ∧
      st' = ⟨st.traffic ++ [r], st.added, some stat.cpcode⟩ := by
  unfold usageStatStep at h
  obtain ⟨r, hr, h2⟩ := exc_bind_ok_inv h
  refine ⟨r, hr, ?_⟩
  have := h2.symm
  simpa [pure, Except.pure] using this

theorem setAdd_mem {s : List Nat} {k k' : Nat} (h : k' ∈ setAdd s k) :
    k' ∈ s ∨ k' = k := by
  unfold setAdd at h
  by_cases hc : s.contains k
  · rw [if_pos hc] at h; exact Or.inl h
  · rw [if_neg hc] at h
    rw [List.mem_append] at h
    rcases h with h | h
    · exact Or.inl h
    · rw [List.mem_singleton] at h; exact Or.inr h

theorem statFold_inv {cm : Dict Nat CpCode} {gm : Dict Nat AGroup}
    {am : Dict Nat (List Nat)} {rm : Dict Nat (List RepGroup)} :
    ∀ (stats : List CpStat) (st₀ st : UState),
      List.foldlM (usageStatStep cm gm am rm) st₀ stats = Except.ok st →
      st.added = st₀.added ∧
      (∀ r ∈ st.traffic, r ∈ st₀.traffic ∨
        ∃ stat ∈ stats, processStat cm gm am rm stat = Except.ok r) ∧
      (st.lastCp = st₀.lastCp ∨ ∃ stat ∈ stats, st.lastCp = some stat.cpcode) := by
  intro stats
  induction stats with
  | nil =>
    intro st₀ st h
    rw [List.foldlM_nil] at h
    have : st₀ = st := by simpa [pure, Except.pure] using h
    subst this
    exact ⟨rfl, fun r hr => Or.inl hr, Or.inl rfl⟩
  | cons s rest ih =>
    intro st₀ st h
    rw [List.foldlM_cons] at h
    obtain ⟨st₁, h1, h2⟩ := exc_bind_ok_inv h
    obtain ⟨r, hr, hst₁⟩ := usageStatStep_ok h1
    obtain ⟨ihA, ihT, ihL⟩ := ih st₁ st h2
    subst hst₁
    refine ⟨ihA, ?_, ?_⟩
    · intro r' hr'
      rcases ihT r' hr' with hin | ⟨stat, hs1, hs2⟩
      · rw [List.mem_append] at hin
        rcases hin with hin | hin
        · exact Or.inl hin
        · rw [List.mem_singleton] at hin
          subst hin
          exact Or.inr ⟨s, by simp, hr⟩
      · exact Or.inr ⟨stat, by simp [hs1], hs2⟩
    · rcases ihL with hL | ⟨stat, hs1, hs2⟩
      · exact Or.inr ⟨s, by simp, hL⟩
      · exact Or.inr ⟨stat, by simp [hs1], hs2⟩

theorem contractStep_inv {env : Env} {cm : Dict Nat CpCode} {gm : Dict Nat AGroup}
    {am : Dict Nat (List Nat)} {rm : Dict Nat (List RepGroup)} {p m : String}
    {st₀ st : UState} {ck : String}
    (h : usageContractStep env cm gm am rm p m st₀ ck = Except.ok st) :
    ∃ st₁ k, List.foldlM (usageStatStep cm gm am rm) st₀
        (env.usage (pyReplace ck "ctr_") p m) = Except.ok st₁ ∧
      st₁.lastCp = some k ∧ st = ⟨st₁.traffic, setAdd st₁.added k, some k⟩ := by
  unfold usageContractStep at h
  obtain ⟨st₁, h1, h2⟩ := exc_bind_ok_inv h
  cases hl : st₁.lastCp with
  | none => rw [hl] at h2; exact absurd h2 (by simp)
  | some k =>
    rw [hl] at h2
    refine ⟨st₁, k, h1, hl, ?_⟩
    simpa [pure, Except.pure] using h2.symm

theorem usageFold_inv {env : Env} {cm : Dict Nat CpCode} {gm : Dict Nat AGroup}
    {am : Dict Nat (List Nat)} {rm : Dict Nat (List RepGroup)} {p m : String} :
    ∀ (keys : List String) (st₀ st : UState),
      List.foldlM (usageContractStep env cm gm am rm p m) st₀ keys = Except.ok st →
      (∀ r ∈ st.traffic, r ∈ st₀.traffic ∨
        ∃ ck ∈ keys, ∃ stat ∈ env.usage (pyReplace ck "ctr_") p m,
          processStat cm gm am rm stat = Except.ok r) ∧
      (∀ k ∈ st.added, k ∈ st₀.added ∨ st₀.lastCp = some k ∨
        ∃ ck ∈ keys, ∃ stat ∈ env.usage (pyReplace ck "ctr_") p m, stat.cpcode = k) ∧
      (st.lastCp = st₀.lastCp ∨
        ∃ ck ∈ keys, ∃ stat ∈ env.usage (pyReplace ck "ctr_") p m,
          st.lastCp = some stat.cpcode) := by
  intro keys
  induction keys with
  | nil =>
    intro st₀ st h
    rw [List.foldlM_nil] at h
    have : st₀ = st := by simpa [pure, Except.pure] using h
    subst this
    exact ⟨fun r hr => Or.inl hr, fun k hk => Or.inl hk, Or.inl rfl⟩
  | cons ck rest ih =>
    intro st₀ st h
    rw [List.foldlM_cons] at h
    obtain ⟨stc, hc, h2⟩ := exc_bind_ok_inv h
    obtain ⟨st₁, k, hfold, hlast, hstc⟩ := contractStep_inv hc
    obtain ⟨sfA, sfT, sfL⟩ := statFold_inv (env.usage (pyReplace ck "ctr_") p m) st₀ st₁ hfold
    obtain ⟨ihT, ihA, ihL⟩ := ih stc st h2
    subst hstc
    have hlastFrom : st₀.lastCp = some k ∨
        ∃ stat ∈ env.usage (pyReplace ck "ctr_") p m, stat.cpcode = k := by
      rcases sfL with hL | ⟨stat, hs1, hs2⟩
      · exact Or.inl (hL ▸ hlast)
      · right
        refine ⟨stat, hs1, ?_⟩
        rw [hlast] at hs2
        exact (Option.some_inj.mp hs2.symm)
    refine ⟨?_, ?_, ?_⟩
    · intro r hr
      rcases ihT r hr with hin | ⟨ck', hck', stat, hs1, hs2⟩
      · simp only at hin
        rcases sfT r hin with hin0 | ⟨stat, hs1, hs2⟩
        · exact Or.inl hin0
        · exact Or.inr ⟨ck, by simp, stat, hs1, hs2⟩
      · exact Or.inr ⟨ck', by simp [hck'], stat, hs1, hs2⟩
    · intro k' hk'
      rcases ihA k' hk' with hin | hlc | ⟨ck', hck', stat, hs1, hs2⟩
      · simp only at hin
        rcases setAdd_mem hin with hin0 | rfl
        · rw [sfA] at hin0
          exact Or.inl hin0
        · rcases hlastFrom with hL | ⟨stat, hs1, hs2⟩
          · exact Or.inr (Or.inl hL)
          · exact Or.inr (Or.inr ⟨ck, by simp, stat, hs1, hs2⟩)
      · simp only at hlc
        obtain rfl : k = k' := Option.some_inj.mp hlc
        rcases hlastFrom with hL | ⟨stat, hs1, hs2⟩
        · exact Or.inr (Or.inl hL)
        · exact Or.inr (Or.inr ⟨ck, by simp, stat, hs1, hs2⟩)
      · exact Or.inr (Or.inr ⟨ck', by simp [hck'], stat, hs1, hs2⟩)
    · rcases ihL with hL | ⟨ck', hck', stat, hs1, hs2⟩
      · simp only at hL
        rcases hlastFrom with h0 | ⟨stat, hs1, hs2⟩
        · exact Or.inl (by rw [hL, h0])
        · exact Or.inr ⟨ck, by simp, stat, hs1, by rw [hL, hs2]⟩
      · exact Or.inr ⟨ck', by simp [hck'], stat, hs1, hs2⟩

/-! ## Engine lemmas: the no-traffic phase -/

theorem pnt_cases {gm : Dict Nat AGroup} {am : Dict Nat (List Nat)}
    {rm : Dict Nat (List RepGroup)} {st st' : List Row × List Nat} {e : Nat × CpCode}
    (h : processNoTraffic gm am rm st e = Except.ok st') :
    (st.2.contains e.1 = true ∧ st' = (st.1, setAdd st.2 e.1)) ∨
    (st.2.contains e.1 = false ∧ (ongoingOk e.2 = false ∨ productOk e.2 = false) ∧
      st' = st) ∨
    (st.2.contains e.1 = false ∧ ongoingOk e.2 = true ∧ productOk e.2 = true ∧
      ∃ gids gp, dlookup am e.1 = some gids ∧ firstLevelNames gm gids = Except.ok gp ∧
        st' = (st.1 ++ [{ contract := pyReplace e.2.accessGroup.contractId "ctr_",
                          cpcode := e.1, name := e.2.cpcodeName, groupPath := gp,
                          repGroups := repNames rm e.1, hits := none, gb := none }],
               setAdd st.2 e.1)) := by
  unfold processNoTraffic at h
  by_cases hc : st.2.contains e.1 = true
  · rw [if_pos (by simpa using hc)] at h
    left
    exact ⟨hc, by simpa [pure, Except.pure] using h.symm⟩
  · rw [if_neg (by simpa using hc)] at h
    have hc' : st.2.contains e.1 = false := by simpa using hc
    by_cases hon : ongoingOk e.2 = true
    · rw [if_neg (by simp [hon])] at h
      by_cases hpr : productOk e.2 = true
      · rw [if_neg (by simp [hpr])] at h
        right; right
        refine ⟨hc', hon, hpr, ?_⟩
        cases hg : dlookup am e.1 with
        | none => rw [hg] at h; exact absurd h (by simp [Option.elim, exc_bind_error])
        | some gids =>
          rw [hg] at h
          simp only [Option.elim, exc_bind_ok] at h
          cases hfl : firstLevelNames gm gids with
          | error err => rw [hfl] at h; exact absurd h (by simp [exc_bind_error])
          | ok gp =>
            rw [hfl, exc_bind_ok] at h
            exact ⟨gids, gp, rfl, hfl, by simpa [pure, Except.pure] using h.symm⟩
      · rw [if_pos (by simpa using hpr)] at h
        right; left
        exact ⟨hc', Or.inr (by simpa using hpr), by simpa [pure, Except.pure] using h.symm⟩
    · rw [if_pos (by simpa using hon)] at h
      right; left
      exact ⟨hc', Or.inl (by simpa using hon), by simpa [pure, Except.pure] using h.symm⟩

theorem ntFold_inv {gm : Dict Nat AGroup} {am : Dict Nat (List Nat)}
    {rm : Dict Nat (List RepGroup)} :
    ∀ (entries : List (Nat × CpCode)) (st₀ st : List Row × List Nat),
      List.foldlM (processNoTraffic gm am rm) st₀ entries = Except.ok st →
      (∀ r ∈ st.1, r ∈ st₀.1 ∨
        ∃ e ∈ entries, r.cpcode = e.1 ∧ r.hits = none ∧ r.gb = none ∧
          ongoingOk e.2 = true ∧ productOk e.2 = true) ∧
      (∀ k ∈ st.2, k ∈ st₀.2 ∨ ∃ e ∈ entries, e.1 = k) ∧
      (∀ r ∈ st₀.1, r ∈ st.1) := by
  intro entries
  induction entries with
  | nil =>
    intro st₀ st h
    rw [List.foldlM_nil] at h
    have : st₀ = st := by simpa [pure, Except.pure] using h
    subst this
    exact ⟨fun r hr => Or.inl hr, fun k hk => Or.inl hk, fun r hr => hr⟩
  | cons e rest ih =>
    intro st₀ st h
    rw [List.foldlM_cons] at h
    obtain ⟨st₁, h1, h2⟩ := exc_bind_ok_inv h
    obtain ⟨ihT, ihA, ihM⟩ := ih st₁ st h2
    rcases pnt_cases h1 with ⟨hc, hst⟩ | ⟨hc, hf, hst⟩ | ⟨hc, hon, hpr, gids, gp, hg, hfl, hst⟩
    · subst hst
      refine ⟨?_, ?_, ?_⟩
      · intro r hr
        rcases ihT r hr with hin | ⟨e', he', hrest⟩
        · exact Or.inl hin
        · exact Or.inr ⟨e', by simp [he'], hrest⟩
      · intro k hk
        rcases ihA k hk with hin | ⟨e', he', hrest⟩
        · rcases setAdd_mem hin with h0 | rfl
          · exact Or.inl h0
          · exact Or.inr ⟨e, by simp, rfl⟩
        · exact Or.inr ⟨e', by simp [he'], hrest⟩
      · exact fun r hr => ihM r hr
    · subst hst
      refine ⟨?_, ?_, ?_⟩
      · intro r hr
        rcases ihT r hr with hin | ⟨e', he', hrest⟩
        · exact Or.inl hin
        · exact Or.inr ⟨e', by simp [he'], hrest⟩
      · intro k hk
        rcases ihA k hk with hin | ⟨e', he', hrest⟩
        · exact Or.inl hin
        · exact Or.inr ⟨e', by simp [he'], hrest⟩
      · exact fun r hr => ihM r hr
    · subst hst
      refine ⟨?_, ?_, ?_⟩
      · intro r hr
        rcases ihT r hr with hin | ⟨e', he', hrest⟩
        · rw [List.mem_append] at hin
          rcases hin with hin | hin
          · exact Or.inl hin
          · rw [List.mem_singleton] at hin
            subst hin
            exact Or.inr ⟨e, by simp, rfl, rfl, rfl, hon, hpr⟩
        · exact Or.inr ⟨e', by simp [he'], hrest⟩
      · intro k hk
        rcases ihA k hk with hin | ⟨e', he', hrest⟩
        · rcases setAdd_mem hin with h0 | rfl
          · exact Or.inl h0
          · exact Or.inr ⟨e, by simp, rfl⟩
        · exact Or.inr ⟨e', by simp [he'], hrest⟩
      · intro r hr
        exact ihM r (by simp [hr])

theorem ntFold_emits {gm : Dict Nat AGroup} {am : Dict Nat (List Nat)}
    {rm : Dict Nat (List RepGroup)} {l₁ l₂ : List (Nat × CpCode)} {e : Nat × CpCode}
    {st₀ st : List Row × List Nat}
    (h : List.foldlM (processNoTraffic gm am rm) st₀ (l₁ ++ e :: l₂) = Except.ok st)
    (hnot1 : ∀ e' ∈ l₁, e'.1 ≠ e.1) (hnot0 : e.1 ∉ st₀.2)
    (hon : ongoingOk e.2 = true) (hpr : productOk e.2 = true) :
    ∃ r ∈ st.1, r.cpcode = e.1 ∧ r.hits = none ∧ r.gb = none := by
  rw [List.foldlM_append] at h
  obtain ⟨st₁, h1, h2⟩ := exc_bind_ok_inv h
  rw [List.foldlM_cons] at h2
  obtain ⟨st₂, hstep, h3⟩ := exc_bind_ok_inv h2
  have hnotin : e.1 ∉ st₁.2 := by
    intro hmem
    obtain ⟨_, hA, _⟩ := ntFold_inv l₁ st₀ st₁ h1
    rcases hA e.1 hmem with h0 | ⟨e', he', heq⟩
    · exact hnot0 h0
    · exact hnot1 e' he' heq
  have hc : st₁.2.contains e.1 = false := by
    by_contra hcc
    exact hnotin (List.elem_iff.mp (by simpa using hcc))
  rcases pnt_cases hstep with ⟨hc', _⟩ | ⟨_, hf, _⟩ | ⟨_, _, _, gids, gp, hg, hfl, hst⟩
  · rw [hc] at hc'; exact absurd hc' (by simp)
  · rcases hf with hf | hf
    · rw [hon] at hf; exact absurd hf (by simp)
    · rw [hpr] at hf; exact absurd hf (by simp)
  · obtain ⟨_, _, hM⟩ := ntFold_inv l₂ st₂ st h3
    subst hst
    refine ⟨{ contract := pyReplace e.2.accessGroup.contractId "ctr_", cpcode := e.1,
              name := e.2.cpcodeName, groupPath := gp, repGroups := repNames rm e.1,
              hits := none, gb := none }, hM _ (by simp), rfl, rfl, rfl⟩

/-! ## Engine lemmas: key uniqueness of the built maps -/

theorem dkeys_dinsert_sub [BEq κ] (m : Dict κ ν) (k : κ) (v : ν) :
    ∀ k' ∈ dkeys (dinsert m k v), k' ∈ dkeys m ∨ k' = k := by
  induction m with
  | nil => intro k' hk'; simp [dinsert, dkeys] at hk'; exact Or.inr hk'
  | cons p rest ih =>
    obtain ⟨k₀, v₀⟩ := p
    intro k' hk'
    rw [dinsert] at hk'
    by_cases h : (k₀ == k) = true
    · rw [if_pos h] at hk'
      simp only [dkeys, List.map_cons, List.mem_cons] at hk' ⊢
      rcases hk' with rfl | hk'
      · exact Or.inl (Or.inl rfl)
      · exact Or.inl (Or.inr hk')
    · rw [if_neg h] at hk'
      simp only [dkeys, List.map_cons, List.mem_cons] at hk' ⊢
      rcases hk' with rfl | hk'
      · exact Or.inl (Or.inl rfl)
      · rcases ih k' hk' with h0 | h0
        · exact Or.inl (Or.inr h0)
        · exact Or.inr h0

theorem dinsert_nodup [BEq κ] [LawfulBEq κ] (m : Dict κ ν) (k : κ) (v : ν)
    (h : (dkeys m).Nodup) : (dkeys (dinsert m k v)).Nodup := by
  induction m with
  | nil => simp [dinsert, dkeys]
  | cons p rest ih =>
    obtain ⟨k₀, v₀⟩ := p
    rw [dinsert]
    simp only [dkeys, List.map_cons, List.nodup_cons] at h
    by_cases hk : (k₀ == k) = true
    · rw [if_pos hk]
      simp only [dkeys, List.map_cons, List.nodup_cons]
      exact h
    · rw [if_neg hk]
      simp only [dkeys, List.map_cons, List.nodup_cons]
      refine ⟨?_, ih h.2⟩
      intro hmem
      rcases dkeys_dinsert_sub rest k v k₀ hmem with h0 | h0
      · exact h.1 h0
      · exact absurd (beq_iff_eq.mpr h0) (by simp [hk])

theorem buildCpcodeMap_nodup (cps : List CpCode) :
    (dkeys (buildCpcodeMap cps)).Nodup := by
  unfold buildCpcodeMap
  have : ∀ (l : List CpCode) (m : Dict Nat CpCode), (dkeys m).Nodup →
      (dkeys (l.foldl (fun m c => dinsert m c.cpcodeId c) m)).Nodup := by
    intro l
    induction l with
    | nil => intro m hm; exact hm
    | cons c rest ih =>
      intro m hm
      rw [List.foldl_cons]
      exact ih _ (dinsert_nodup m c.cpcodeId c hm)
  exact this cps [] (by simp [dkeys])

theorem dlookup_mem [BEq κ] [LawfulBEq κ] {m : Dict κ ν} {k : κ} {v : ν}
    (h : dlookup m k = some v) : (k, v) ∈ m := by
  unfold dlookup at h
  cases hf : m.find? (fun p => p.1 == k) with
  | none => rw [hf] at h; exact absurd h (by simp)
  | some p =>
    rw [hf] at h
    have hp : p.2 = v := by simpa using h
    have hk : p.1 = k := by simpa [beq_iff_eq] using List.find?_some hf
    have hm : p ∈ m := List.mem_of_find?_eq_some hf
    rw [← hk, ← hp]
    exact hm

theorem nodup_key_unique {m : Dict Nat CpCode} (h : (dkeys m).Nodup) {k : Nat}
    {a b : CpCode} (ha : (k, a) ∈ m) (hb : (k, b) ∈ m) : a = b := by
  induction m with
  | nil => simp at ha
  | cons p rest ih =>
    simp only [dkeys, List.map_cons, List.nodup_cons] at h
    rw [List.mem_cons] at ha hb
    rcases ha with rfl | ha
    · rcases hb with hb | hb
      · exact congrArg Prod.snd hb.symm
      · exact absurd (List.mem_map_of_mem Prod.fst hb) (by simpa [dkeys] using h.1)
    · rcases hb with rfl | hb
      · exact absurd (List.mem_map_of_mem Prod.fst ha) (by simpa [dkeys] using h.1)
      · exact ih h.2 ha hb

/-! ## Engine inversion and Claim C4 -/

theorem cptraffic_ok {env : Env} {p m : String} {inc : Bool} {rows : List Row}
    (h : cptrafficPerMonth env p m inc = Except.ok rows) :
    ∃ maps ust, groupPhase env = Except.ok maps ∧
      usagePhase env (buildCpcodeMap env.cpcodes) maps.1 maps.2
        (createMapCpcodeRepGroup env.repGroups) p m
        (dkeys (buildContractMap env.contracts)) = Except.ok ust ∧
      ((inc = true ∧ rows = ust.traffic) ∨
       (inc = false ∧ ∃ fin,
         List.foldlM (processNoTraffic maps.1 maps.2 (createMapCpcodeRepGroup env.repGroups))
           (ust.traffic, ust.added) (buildCpcodeMap env.cpcodes) = Except.ok fin ∧
         rows = fin.1)) := by
  unfold cptrafficPerMonth at h
  obtain ⟨maps, hmaps, h2⟩ := exc_bind_ok_inv h
  obtain ⟨ust, hust, h3⟩ := exc_bind_ok_inv h2
  refine ⟨maps, ust, hmaps, hust, ?_⟩
  cases inc
  · right
    refine ⟨rfl, ?_⟩
    rw [if_pos (by simp)] at h3
    obtain ⟨fin, hfin, h4⟩ := exc_bind_ok_inv h3
    exact ⟨fin, hfin, by simpa [pure, Except.pure] using h4.symm⟩
  · left
    refine ⟨rfl, ?_⟩
    rw [if_neg (by simp)] at h3
    simpa [pure, Except.pure] using h3.symm

/-- Claim C4: every report row emitted from a usage statistic carries the
authoritative contract of the billing catalog (the entity's
`accessGroup.contractId` with the `"ctr_"` prefix removed), whatever
contract the usage was fetched under.  Usage rows are exactly the rows whose
`hits` key is present. -/
theorem usage_row_contract_from_catalog (env : Env) (p m : String) (inc : Bool)
    (rows : List Row) (hok : cptrafficPerMonth env p m inc = Except.ok rows)
    (r : Row) (hr : r ∈ rows) (hu : r.hits ≠ none) :
    ∃ c, dlookup (buildCpcodeMap env.cpcodes) r.cpcode = some c ∧
      r.contract = pyReplace c.accessGroup.contractId "ctr_" := by
  obtain ⟨maps, ust, hmaps, hust, hbr⟩ := cptraffic_ok hok
  unfold usagePhase at hust
  obtain ⟨hT, hA, hL⟩ := usageFold_inv _ _ _ hust
  have hmem_usage : r ∈ ust.traffic →
      ∃ c, dlookup (buildCpcodeMap env.cpcodes) r.cpcode = some c ∧
        r.contract = pyReplace c.accessGroup.contractId "ctr_" := by
    intro hru
    rcases hT r hru with habs | ⟨ck, hck, stat, hs1, hs2⟩
    · simp at habs
    · obtain ⟨c, gids, gp, hc, hg, hfl, hreq⟩ := processStat_ok hs2
      exact ⟨c, by rw [hreq]; exact hc, by rw [hreq]⟩
  rcases hbr with ⟨_, hrows⟩ | ⟨_, fin, hfin, hrows⟩
  · exact hmem_usage (hrows ▸ hr)
  · subst hrows
    obtain ⟨ntT, _, _⟩ := ntFold_inv _ _ _ hfin
    rcases ntT r hr with hru | ⟨e, he, hcp, hhits, _⟩
    · exact hmem_usage hru
    · exact absurd hhits hu

/-- Witness for C4 on `envC4`: the emitted contract is the catalog's. -/
theorem usage_row_contract_from_catalog_witness :
    cptrafficPerMonth envC4 "P" "2024-01" true = Except.ok [rowC4] ∧
    rowC4 ∈ [rowC4] ∧ rowC4.hits ≠ none ∧
    ∃ c, dlookup (buildCpcodeMap envC4.cpcodes) rowC4.cpcode = some c ∧
      rowC4.contract = pyReplace c.accessGroup.contractId "ctr_" :=
  ⟨rfl, by decide, by decide,
   usage_row_contract_from_catalog envC4 "P" "2024-01" true [rowC4] rfl rowC4
     (by decide) (by decide)⟩

/-! ## Claim C3: emission of no-traffic entities -/

/-- Claim C3: with `includeNoTraffic = false`, a catalog entity absent from
every fetched usage feed is emitted — necessarily with both statistics
absent, not zero — if and only if it has at least one contract association
with status `"ongoing"` and at least one product association in the
delivery-products allow-list; otherwise it is omitted entirely. -/
theorem no_traffic_emission (env : Env) (p m : String) (rows : List Row)
    (hok : cptrafficPerMonth env p m false = Except.ok rows)
    (k : Nat) (c : CpCode) (hkc : dlookup (buildCpcodeMap env.cpcodes) k = some c)
    (habs : ∀ ck ∈ dkeys (buildContractMap env.contracts),
      ∀ stat ∈ env.usage (pyReplace ck "ctr_") p m, stat.cpcode ≠ k) :
    ((∃ r ∈ rows, r.cpcode = k) ↔ (ongoingOk c = true ∧ productOk c = true)) ∧
    (∀ r ∈ rows, r.cpcode = k → r.hits = none ∧ r.gb = none) := by
  obtain ⟨maps, ust, hmaps, hust, hbr⟩ := cptraffic_ok hok
  rcases hbr with ⟨habs0, _⟩ | ⟨_, fin, hfin, hrows⟩
  · simp at habs0
  subst hrows
  unfold usagePhase at hust
  obtain ⟨uT, uA, uL⟩ := usageFold_inv _ _ _ hust
  have husage_ne : ∀ r ∈ ust.traffic, r.cpcode ≠ k := by
    intro r hr hcp
    rcases uT r hr with habs0 | ⟨ck, hck, stat, hs1, hs2⟩
    · simp at habs0
    · obtain ⟨c', gids, gp, hc', hg', hfl', hreq⟩ := processStat_ok hs2
      apply habs ck hck stat hs1
      rw [hreq] at hcp
      simpa using hcp
  have hknotadded : k ∉ ust.added := by
    intro hk
    rcases uA k hk with h0 | h0 | ⟨ck, hck, stat, hs1, hs2⟩
    · simp at h0
    · simp at h0
    · exact habs ck hck stat hs1 hs2
  have hmem : (k, c) ∈ buildCpcodeMap env.cpcodes := dlookup_mem hkc
  have hnodup := buildCpcodeMap_nodup env.cpcodes
  obtain ⟨l₁, l₂, hsplit⟩ := List.append_of_mem hmem
  have hkeys : k ∉ (dkeys l₁ ++ dkeys l₂) := by
    have := hnodup
    rw [hsplit] at this
    simp only [dkeys, List.map_append, List.map_cons] at this
    rw [List.nodup_middle, List.nodup_cons] at this
    simpa [dkeys] using this.1
  have hkl₁ : ∀ e' ∈ l₁, e'.1 ≠ k := by
    intro e' he' heq
    exact hkeys (by rw [List.mem_append]; exact Or.inl (heq ▸ List.mem_map_of_mem Prod.fst he'))
  obtain ⟨ntT, ntA, ntM⟩ := ntFold_inv _ _ _ hfin
  refine ⟨⟨?_, ?_⟩, ?_⟩
  · rintro ⟨r, hr, hcp⟩
    rcases ntT r hr with hru | ⟨e, he, hcpe, _, _, hon, hpr⟩
    · exact absurd hcp (husage_ne r hru)
    · have he1 : e.1 = k := by rw [← hcpe, hcp]
      have hke : (k, e.2) ∈ buildCpcodeMap env.cpcodes := by
        rw [← he1]
        exact he
      have hec : e.2 = c := nodup_key_unique hnodup hke hmem
      exact ⟨by rw [← hec]; exact hon, by rw [← hec]; exact hpr⟩
  · rintro ⟨hon, hpr⟩
    have h' := hfin
    rw [hsplit] at h'
    obtain ⟨r, hrfin, hcp, hh, hg⟩ := ntFold_emits h' hkl₁ hknotadded hon hpr
    exact ⟨r, hrfin, hcp⟩
  · intro r hr hcp
    rcases ntT r hr with hru | ⟨e, he, hcpe, hh, hg, _, _⟩
    · exact absurd hcp (husage_ne r hru)
    · exact ⟨hh, hg⟩

/-- Witness for C3 on `envC3`. -/
theorem no_traffic_emission_witness :
    (cptrafficPerMonth envC3 "P" "2024-01" false = Except.ok [rowC3u, rowC3n] ∧
      dlookup (buildCpcodeMap envC3.cpcodes) 100
        = some ⟨100, "A", ⟨"ctr_C1"⟩, [⟨"ongoing"⟩], [⟨"Site_Accel::Site_Accel"⟩]⟩ ∧
      (∀ ck ∈ dkeys (buildContractMap envC3.contracts),
        ∀ stat ∈ envC3.usage (pyReplace ck "ctr_") "P" "2024-01", stat.cpcode ≠ 100)) ∧
    (((∃ r ∈ [rowC3u, rowC3n], r.cpcode = 100) ↔
        (ongoingOk ⟨100, "A", ⟨"ctr_C1"⟩, [⟨"ongoing"⟩], [⟨"Site_Accel::Site_Accel"⟩]⟩ = true ∧
         productOk ⟨100, "A", ⟨"ctr_C1"⟩, [⟨"ongoing"⟩], [⟨"Site_Accel::Site_Accel"⟩]⟩ = true)) ∧
      (∀ r ∈ [rowC3u, rowC3n], r.cpcode = 100 → r.hits = none ∧ r.gb = none)) :=
  ⟨⟨rfl, by decide, by decide⟩,
   no_traffic_emission envC3 "P" "2024-01" [rowC3u, rowC3n] rfl 100
     ⟨100, "A", ⟨"ctr_C1"⟩, [⟨"ongoing"⟩], [⟨"Site_Accel::Site_Accel"⟩]⟩
     (by decide) (by decide)⟩

/-! ## Claim C5: behaviour on unresolved references -/

/-- Claim C5, counterexample: an entity whose group membership is absent
from the built maps does not yield a ReportRow — the run aborts with the
KeyError of `mapCpcodeAccgroup[cpcodeId]` (source line 225). -/
theorem missing_group_membership_crashes :
    cptrafficPerMonth envC5 "P" "2024-01" false
      = Except.error "KeyError: mapCpcodeAccgroup" := rfl

/-- Claim C5, amended: only a missing reporting-group membership is
tolerated — the row is still emitted, with an empty reporting-group list.
An entity missing from the entity catalog map or from the entity→group map
raises a KeyError (source lines 222 and 225) instead of being treated as
"no attribution". -/
theorem lookup_fallback_behaviour :
    (∀ (cm : Dict Nat CpCode) (gm : Dict Nat AGroup) (am : Dict Nat (List Nat))
       (rm : Dict Nat (List RepGroup)) (stat : CpStat) (c : CpCode),
       dlookup cm stat.cpcode = some c → dlookup am stat.cpcode = none →
       processStat cm gm am rm stat = Except.error "KeyError: mapCpcodeAccgroup") ∧
    (∀ (cm : Dict Nat CpCode) (gm : Dict Nat AGroup) (am : Dict Nat (List Nat))
       (rm : Dict Nat (List RepGroup)) (stat : CpStat),
       dlookup cm stat.cpcode = none →
       processStat cm gm am rm stat = Except.error "KeyError: cpcodeMap") ∧
    (∀ (cm : Dict Nat CpCode) (gm : Dict Nat AGroup) (am : Dict Nat (List Nat))
       (rm : Dict Nat (List RepGroup)) (stat : CpStat) (c : CpCode)
       (gids : List Nat) (gp : List String),
       dlookup cm stat.cpcode = some c → dlookup am stat.cpcode = some gids →
       firstLevelNames gm gids = Except.ok gp → dlookup rm stat.cpcode = none →
       ∃ r, processStat cm gm am rm stat = Except.ok r ∧ r.repGroups = [] ∧
         r.cpcode = stat.cpcode ∧ r.hits = some stat.hits) := by
  refine ⟨?_, ?_, ?_⟩
  · intro cm gm am rm stat c hc ha
    unfold processStat
    rw [hc]
    simp only [Option.elim, exc_bind_ok]
    rw [ha]
    rfl
  · intro cm gm am rm stat hc
    unfold processStat
    rw [hc]
    rfl
  · intro cm gm am rm stat c gids gp hc ha hfl hrm
    unfold processStat
    rw [hc]
    simp only [Option.elim, exc_bind_ok]
    rw [ha]
    simp only [Option.elim, exc_bind_ok]
    rw [hfl, exc_bind_ok]
    refine ⟨_, rfl, ?_, rfl, rfl⟩
    show repNames rm stat.cpcode = []
    unfold repNames
    rw [hrm]

/-- Witness for the amended C5: a concrete statistic whose group lookup is
missing aborts, and one whose reporting-group lookup is missing still
yields a row with no reporting groups. -/
theorem lookup_fallback_behaviour_witness :
    (dlookup [(100, cpW)] (100 : Nat) = some cpW ∧
      dlookup ([] : Dict Nat (List Nat)) (100 : Nat) = none ∧
      processStat [(100, cpW)] [] [] [] ⟨100, some 5, some 1⟩
        = Except.error "KeyError: mapCpcodeAccgroup") ∧
    (dlookup [(100, cpW)] (100 : Nat) = some cpW ∧
      dlookup [(100, [])] (100 : Nat) = some ([] : List Nat) ∧
      firstLevelNames [] [] = Except.ok [] ∧
      dlookup ([] : Dict Nat (List RepGroup)) (100 : Nat) = none ∧
      ∃ r, processStat [(100, cpW)] [] [(100, [])] [] ⟨100, some 5, some 1⟩
          = Except.ok r ∧ r.repGroups = [] ∧ r.cpcode = 100 ∧ r.hits = some (some 5)) :=
  ⟨⟨by decide, by decide,
    lookup_fallback_behaviour.1 [(100, cpW)] [] [] [] ⟨100, some 5, some 1⟩ cpW
      (by decide) (by decide)⟩,
   ⟨by decide, by decide, by decide, by decide,
    lookup_fallback_behaviour.2.2 [(100, cpW)] [] [(100, [])] [] ⟨100, some 5, some 1⟩
      cpW [] [] (by decide) (by decide) (by decide) (by decide)⟩⟩

/-! ## Claim C1: one row per catalog entity -/

/-- Claim C1 (evaluation at the failing input): on `envC1` the engine emits
entity 100 twice — once from its usage statistic and once from the
no-traffic pass, because line 241's `addedCpCodes.add(cpcodeId)` sits
outside the stats loop and records only the last statistic's entity (200),
so the no-traffic pass no longer knows 100 was emitted. -/
theorem duplicate_report_rows :
    emittedCpcodes (cptrafficPerMonth envC1 "P" "2024-01" false) = [100, 200, 100] ∧
    [100, 200, 100].count 100 = 2 :=
  ⟨rfl, by decide⟩

end UsageCpcode
